import Mathlib

/-!
# Verification of the `app-previsional-ia` extraction and document-filling core

This file gives a shallow embedding, over `Str := List Char`, of the Python
functions in `contract_utils.py` (beneficiary table parser, field extractor,
DOCX template filler) and of the legacy `fill_contract_template`, together
with theorems settling the specification claims about them.

Python string operations (`strip`, `split`, `lower`, `replace`, substring
tests, the specific regular expressions used by the code) are modelled by
executable structurally-recursive functions on `List Char`.
-/

set_option maxHeartbeats 1000000

namespace AppPrevisional

abbrev Str := List Char

/-- Python whitespace for `str.strip()` / `\s` (ASCII range). -/
def pySpace (c : Char) : Bool :=
  c = ' ' || c = '\t' || c = '\n' || c = '\r' || c = '\x0b' || c = '\x0c'

/-- Python `str.lower()` restricted to ASCII plus the accented letters used
by the source patterns. -/
def lowChar (c : Char) : Char :=
  if 'A' ≤ c ∧ c ≤ 'Z' then Char.ofNat (c.toNat + 32)
  else if c = 'Á' then 'á'
  else if c = 'É' then 'é'
  else if c = 'Í' then 'í'
  else if c = 'Ó' then 'ó'
  else if c = 'Ú' then 'ú'
  else if c = 'Ñ' then 'ñ'
  else c

def lowStr (s : Str) : Str := s.map lowChar

/-- Case-insensitive character comparison (re.IGNORECASE model). -/
def ciEq (a b : Char) : Bool := lowChar a = lowChar b

/-- Python `str.strip()`: drop leading and trailing whitespace. -/
def pyStrip (s : Str) : Str :=
  ((s.dropWhile pySpace).reverse.dropWhile pySpace).reverse

/-- Python `str.strip('|')`: drop leading and trailing `'|'` characters. -/
def stripPipes (s : Str) : Str :=
  ((s.dropWhile (· = '|')).reverse.dropWhile (· = '|')).reverse

/-- Python `str.split(sep)` for a single-character separator: always returns
at least one piece. -/
def splitOnChar (sep : Char) : Str → List Str
  | [] => [[]]
  | c :: t =>
    if c = sep then [] :: splitOnChar sep t
    else match splitOnChar sep t with
      | [] => [[c]]
      | p :: ps => (c :: p) :: ps

/-- `" ".join(xs)` etc. -/
def joinWith (sep : Str) : List Str → Str
  | [] => []
  | [x] => x
  | x :: xs => x ++ sep ++ joinWith sep xs

/-- Substring containment, Python `in`. -/
def isSub (pat : Str) : Str → Bool
  | [] => decide (pat = [])
  | c :: t => pat.isPrefixOf (c :: t) || isSub pat t

/-- Case-insensitive prefix test: does `s` start (caselessly) with `pat`? -/
def ciPrefix : Str → Str → Bool
  | [], _ => true
  | _ :: _, [] => false
  | p :: ps, c :: cs => ciEq p c && ciPrefix ps cs

/-- Python `str.replace(pat, val)` (all occurrences, left to right,
non-overlapping), via a fuel bounded by the string length. -/
def replaceAllFuel (pat val : Str) : Nat → Str → Str
  | 0, s => s
  | _ + 1, [] => []
  | fuel + 1, c :: t =>
    if pat ≠ [] ∧ pat.isPrefixOf (c :: t) then
      val ++ replaceAllFuel pat val fuel (List.drop (pat.length - 1) t)
    else
      c :: replaceAllFuel pat val fuel t

def replaceAll (pat val s : Str) : Str := replaceAllFuel pat val s.length s

/-- Association list with Python-`dict` update semantics (overwrite in
place, else append at the end). -/
def dictSet (k : Str) (v : Str) : List (Str × Str) → List (Str × Str)
  | [] => [(k, v)]
  | (k', v') :: t => if k' = k then (k, v) :: t else (k', v') :: dictSet k v t

def dictGet (k : Str) : List (Str × Str) → Option Str
  | [] => none
  | (k', v') :: t => if k' = k then some v' else dictGet k t

/-- Association list with `Nat` keys (the header-column map). -/
def natDictSet (k : Nat) (v : Str) : List (Nat × Str) → List (Nat × Str)
  | [] => [(k, v)]
  | (k', v') :: t => if k' = k then (k, v) :: t else (k', v') :: natDictSet k v t

def natDictGet (k : Nat) : List (Nat × Str) → Option Str
  | [] => none
  | (k', v') :: t => if k' = k then some v' else natDictGet k t

/-- Coerce a Lean string literal to the model's character-list strings. -/
def str (s : String) : Str := s.data

/-! ## Beneficiary table parser: `extract_beneficiaries_from_report` -/

/-- The marker phrase, lowered, as matched case-insensitively by the regex
`(?:##|\d+[\.\)])\s*Antecedentes del beneficiario`. -/
def phraseLower : Str := str "antecedentes del beneficiario"

def isDigitB (c : Char) : Bool := '0' ≤ c && c ≤ '9'

def countWhile (p : Char → Bool) (s : Str) : Nat := (s.takeWhile p).length

/-- One attempt of the section-marker regex at the start of `s`; returns the
match length (the alternation tries `##` first, then `\d+[\.\)]`, each
followed by greedy `\s*` and the case-insensitive phrase). -/
def matchMarkerAt (s : Str) : Option Nat :=
  if s.take 2 = ['#', '#'] then
    let rest := s.drop 2
    let w := countWhile pySpace rest
    if ciPrefix phraseLower (rest.drop w) then some (2 + w + phraseLower.length)
    else none
  else
    let d := countWhile isDigitB s
    if d = 0 then none
    else
      match s.drop d with
      | c :: rest2 =>
        if c = '.' ∨ c = ')' then
          let w := countWhile pySpace rest2
          if ciPrefix phraseLower (rest2.drop w) then some (d + 1 + w + phraseLower.length)
          else none
        else none
      | [] => none

/-- `re.search` for the section marker: leftmost position wins; returns the
end index of the match (`match.end()`). -/
def findMarkerEndAux : Str → Nat → Option Nat
  | [], _ => none
  | s@(_ :: t), pos =>
    match matchMarkerAt s with
    | some k => some (pos + k)
    | none => findMarkerEndAux t (pos + 1)

def findMarkerEnd (s : Str) : Option Nat := findMarkerEndAux s 0

/-- `set(stripped.replace("|","").replace(":","").replace(" ","")) == {'-'}`:
after removing pipes, colons and spaces something is left and it is all
hyphens. -/
def sepLike (s : Str) : Bool :=
  let t := s.filter (fun c => !(c = '|' || c = ':' || c = ' '))
  !t.isEmpty && t.all (· = '-')

/-- The table-collection loop: gather contiguous `|...|` rows after the
marker, skipping separator rows, stopping at the first blank line (once in
the table) or non-table line. -/
def collectTableLines : List Str → Bool → List Str → List Str
  | [], _, acc => acc
  | l :: ls, inT, acc =>
    let st := pyStrip l
    if st.isEmpty then
      (if inT then acc else collectTableLines ls inT acc)
    else if st.head? = some '|' && st.getLast? = some '|' then
      (if sepLike st then collectTableLines ls true acc
       else collectTableLines ls true (acc ++ [st]))
    else if inT then acc
    else if !acc.isEmpty then acc
    else collectTableLines ls inT acc

/-- The `col_keywords` mapping, in source (dict-literal) order. -/
def colKeywords : List (Str × Str) :=
  [(str "nombre", str "nombre"), (str "rut", str "rut"),
   (str "parentesco", str "parentesco"), (str "sexo", str "sexo"),
   (str "inv", str "invalidez"), (str "nac", str "fecha_nacimiento")]

/-- First keyword (in source order) contained in a lowered header cell. -/
def firstKw (cell : Str) : Option Str :=
  (colKeywords.find? (fun kv => isSub kv.1 cell)).map (·.2)

/-- `cells = [c.strip() for c in line.strip('|').split('|')]`. -/
def rowCells (line : Str) : List Str :=
  (splitOnChar '|' (stripPipes line)).map pyStrip

/-- The header-row heuristic: cells jointly mention "nombre" (first cell or
joined) and "rut" (joined). -/
def isHeaderRow (lowerCells : List Str) : Bool :=
  (isSub (str "nombre") (lowerCells.headD []) ||
     isSub (str "nombre") (joinWith [' '] lowerCells)) &&
  isSub (str "rut") (joinWith [' '] lowerCells)

/-- Accumulate header-map entries from one header row (per-cell first
keyword match, later header rows overwrite duplicates). -/
def buildHeaderMap (lowerCells : List Str) (hm : List (Nat × Str)) : List (Nat × Str) :=
  lowerCells.enum.foldl
    (fun m ic =>
      match firstKw ic.2 with
      | some std => natDictSet ic.1 std m
      | none => m) hm

/-- The header/data classification loop over the collected table lines. -/
def headerScan : List Str → List (Nat × Str) → Bool → List (List Str) →
    List (Nat × Str) × List (List Str)
  | [], hm, _, dl => (hm, dl)
  | l :: ls, hm, hf, dl =>
    let cells := rowCells l
    let lower := cells.map lowStr
    if isHeaderRow lower then headerScan ls (buildHeaderMap lower hm) true dl
    else if hf then headerScan ls hm hf (dl ++ [cells])
    else headerScan ls hm hf dl

/-- Default column mapping used when no header row was identified. -/
def defaultHeaderMap : List (Nat × Str) :=
  [(0, str "nombre"), (1, str "rut"), (2, str "parentesco")]

/-- Build one beneficiary record from a data row: default the three core
keys to empty, then overwrite from mapped columns. -/
def mkRowData (hm : List (Nat × Str)) (cells : List Str) : List (Str × Str) :=
  cells.enum.foldl
    (fun rd iv =>
      match natDictGet iv.1 hm with
      | some k => dictSet k iv.2 rd
      | none => rd)
    [(str "nombre", []), (str "rut", []), (str "parentesco", [])]

/-- `if row_data.get("nombre") or row_data.get("rut")`. -/
def rowAccepted (rd : List (Str × Str)) : Bool :=
  !((dictGet (str "nombre") rd).getD []).isEmpty ||
  !((dictGet (str "rut") rd).getD []).isEmpty

/-- `extract_beneficiaries_from_report`. -/
def extractBeneficiariesFromReport (reportText : Str) : List (List (Str × Str)) :=
  match findMarkerEnd reportText with
  | none => []
  | some startIndex =>
    let lines := splitOnChar '\n' (reportText.drop startIndex)
    let tableLines := collectTableLines lines false []
    if tableLines.isEmpty then []
    else
      let scanned := headerScan tableLines [] false []
      let hm := if scanned.1.isEmpty then defaultHeaderMap else scanned.1
      let dl := if scanned.1.isEmpty then tableLines.map rowCells else scanned.2
      dl.foldl
        (fun acc cells =>
          let rd := mkRowData hm cells
          if rowAccepted rd then acc ++ [rd] else acc) []

/-! ## Field extractor: `extract_contract_data`

The label patterns all have the shape `\*\*<body>:?\*\*\s*(.*)` compiled
with `re.IGNORECASE`, where `<body>` is built from case-insensitive literal
characters, character classes such as `[óo]`, and the lazy `.*?`.  Since the
final `\s*(.*)` always matches, a pattern match is a match of the token list
`\*\*<body>:?\*\*`, and the captured group is the remainder's maximal
whitespace run dropped, then everything up to the next newline. -/

inductive PTok where
  | ch (c : Char)
  | cls (cs : List Char)
  | opt (c : Char)
  | lazyDots
deriving Repr, DecidableEq

/-- Backtracking matcher for one token list at the start of `s`; returns the
remaining input after the match.  Fuel-bounded so that the kernel can
evaluate it; `s.length + toks.length` fuel always suffices. -/
def matchPatFuel : Nat → List PTok → Str → Option Str
  | 0, _, _ => none
  | _ + 1, [], s => some s
  | fuel + 1, t :: ts, s =>
    match t with
    | .ch c =>
      match s with
      | [] => none
      | x :: xs => if ciEq c x then matchPatFuel fuel ts xs else none
    | .cls cs =>
      match s with
      | [] => none
      | x :: xs => if cs.any (fun c => ciEq c x) then matchPatFuel fuel ts xs else none
    | .opt c =>
      match s with
      | x :: xs =>
        if ciEq c x then
          match matchPatFuel fuel ts xs with
          | some r => some r
          | none => matchPatFuel fuel ts s
        else matchPatFuel fuel ts s
      | [] => matchPatFuel fuel ts s
    | .lazyDots =>
      match matchPatFuel fuel ts s with
      | some r => some r
      | none =>
        match s with
        | x :: xs => if x ≠ '\n' then matchPatFuel fuel (t :: ts) xs else none
        | [] => none

def matchPat (toks : List PTok) (s : Str) : Option Str :=
  matchPatFuel (s.length + toks.length) toks s

/-- Literal (case-insensitive) token run. -/
def lits (s : String) : List PTok := s.data.map PTok.ch

/-- Wrap a pattern body into the full `\*\*<body>:?\*\*` token list. -/
def pTokens (body : List PTok) : List PTok :=
  lits "**" ++ body ++ [PTok.opt ':'] ++ lits "**"

/-- `match.group(1).`: after the token-list match, greedy `\s*` then `(.*)`
(up to the next newline). -/
def captureFrom (rest : Str) : Str :=
  (rest.dropWhile pySpace).takeWhile (· ≠ '\n')

/-- `re.search` for one field: leftmost position wins; at a position the
alternatives of `(?:..|..)` are tried in source order. -/
def findFieldAux (alts : List (List PTok)) : Str → Option Str
  | [] =>
    match alts.findSome? (fun toks => matchPat toks []) with
    | some rest => some (captureFrom rest)
    | none => none
  | s@(_ :: t) =>
    match alts.findSome? (fun toks => matchPat toks s) with
    | some rest => some (captureFrom rest)
    | none => findFieldAux alts t

def findField (alts : List (List PTok)) (s : Str) : Option Str := findFieldAux alts s

/-- The `patterns` dict of `extract_contract_data`, in source order. -/
def fieldPatterns : List (Str × List (List PTok)) :=
  [ (str "Nombre Completo", [pTokens (lits "Nombre Completo")]),
    (str "RUT", [pTokens (lits "RUT")]),
    (str "Dirección",
      [pTokens (lits "Direcci" ++ [PTok.cls ['ó', 'o']] ++ lits "n"),
       pTokens (lits "Domicilio")]),
    (str "Comuna", [pTokens (lits "Comuna")]),
    (str "Ciudad", [pTokens (lits "Ciudad")]),
    (str "Teléfono", [pTokens (lits "Tel" ++ [PTok.cls ['é', 'e']] ++ lits "fono")]),
    (str "Celular", [pTokens (lits "Celular")]),
    (str "Correo Electrónico", [pTokens (lits "Correo" ++ [PTok.lazyDots])]),
    (str "Estado Civil", [pTokens (lits "Estado Civil")]),
    (str "Cédula de Identidad", [pTokens (lits "Cédula" ++ [PTok.lazyDots])]),
    (str "Fecha de Nacimiento", [pTokens (lits "Fecha de Nacimiento")]),
    (str "AFP de Origen", [pTokens (lits "AFP de Origen")]),
    (str "Institución de Salud", [pTokens (lits "Institución de Salud")]),
    (str "Sistema de Salud", [pTokens (lits "Sistema de Salud")]),
    (str "Tipo de Pensión Solicitada", [pTokens (lits "Tipo de Pensión Solicitada")]),
    (str "Oficio",
      [pTokens (lits "Oficio"),
       pTokens (lits "Profesi" ++ [PTok.cls ['ó', 'o']] ++ lits "n"),
       pTokens (lits "Ocupaci" ++ [PTok.cls ['ó', 'o']] ++ lits "n")]),
    (str "Causante Nombre", [pTokens (lits "Causante Nombre")]),
    (str "Causante RUT", [pTokens (lits "Causante RUT")]),
    (str "Consultante Nombre", [pTokens (lits "Consultante Nombre")]),
    (str "Consultante RUT", [pTokens (lits "Consultante RUT")]) ]

/-- `if val and "No informada" not in val and "[Extraer" not in val`. -/
def acceptVal (v : Str) : Bool :=
  !v.isEmpty && !isSub (str "No informada") v && !isSub (str "[Extraer") v

/-- One iteration of the labelled-pattern loop. -/
def patternStep (text : Str) (data : List (Str × Str)) (fp : Str × List (List PTok)) :
    List (Str × Str) :=
  match findField fp.2 text with
  | some raw =>
    let val := pyStrip raw
    if acceptVal val then dictSet fp.1 val data else data
  | none => data

/-- The labelled-pattern loop of `extract_contract_data`. -/
def patternStage (text : Str) : List (Str × Str) :=
  fieldPatterns.foldl (patternStep text) []

/-! ### The bare national-ID fallback `\b(\d{1,2}\.\d{3}\.\d{3}-[\dkK])\b` -/

def isWordChar (c : Char) : Bool :=
  isDigitB c || ('a' ≤ c && c ≤ 'z') || ('A' ≤ c && c ≤ 'Z') || c = '_' ||
    c ∈ ['á', 'é', 'í', 'ó', 'ú', 'ñ', 'Á', 'É', 'Í', 'Ó', 'Ú', 'Ñ']

/-- Parse `\.\d{3}\.\d{3}-[\dkK]` and return (matched run, remainder). -/
def rutTail (s : Str) : Option (Str × Str) :=
  match s with
  | '.' :: d1 :: d2 :: d3 :: '.' :: e1 :: e2 :: e3 :: '-' :: k :: rest =>
    if [d1, d2, d3, e1, e2, e3].all isDigitB && (isDigitB k || k = 'k' || k = 'K') then
      some (['.', d1, d2, d3, '.', e1, e2, e3, '-', k], rest)
    else none
  | _ => none

/-- Is the position after the match a word boundary? -/
def endBoundary (after : Str) : Bool :=
  match after with
  | [] => true
  | c :: _ => !isWordChar c

/-- The two-digit attempt of the greedy `\d{1,2}`. -/
def rutTry2 (a : Char) (rest : Str) : Option Str :=
  match rest with
  | b :: rest2 =>
    if isDigitB b then
      match rutTail rest2 with
      | some (m, after) => if endBoundary after then some (a :: b :: m) else none
      | none => none
    else none
  | [] => none

/-- The one-digit attempt (the backtracking case of `\d{1,2}`). -/
def rutTry1 (a : Char) (rest : Str) : Option Str :=
  match rutTail rest with
  | some (m, after) => if endBoundary after then some (a :: m) else none
  | none => none

/-- Attempt of the fallback regex at the start of `s` (`prevWord`: was the
preceding character a word character?).  The greedy `\d{1,2}` tries two
digits first, backtracking to one. -/
def matchRutAt (prevWord : Bool) (s : Str) : Option Str :=
  if prevWord then none
  else
    match s with
    | [] => none
    | a :: rest =>
      if !isDigitB a then none
      else
        match rutTry2 a rest with
        | some r => some r
        | none => rutTry1 a rest

def findRutAux (prevWord : Bool) : Str → Option Str
  | [] => none
  | s@(c :: t) =>
    match matchRutAt prevWord s with
    | some m => some m
    | none => findRutAux (isWordChar c) t

def rutSearch (s : Str) : Option Str := findRutAux false s

/-! ### Beneficiary flattening and the full extractor -/

def digitChar (n : Nat) : Char := Char.ofNat (48 + n)

def natToStrFuel : Nat → Nat → Str
  | 0, _ => []
  | fuel + 1, n => if n < 10 then [digitChar n] else natToStrFuel fuel (n / 10) ++ [digitChar (n % 10)]

def natToStr (n : Nat) : Str := natToStrFuel (n + 1) n

def benKey (idx : Nat) (suffix : String) : Str :=
  str "Beneficiario " ++ natToStr idx ++ str suffix

/-- One iteration of the `Beneficiario {idx} ...` flattening loop. -/
def flattenStep (d : List (Str × Str)) (ib : Nat × List (Str × Str)) : List (Str × Str) :=
  let idx := ib.1 + 1
  let ben := ib.2
  let d := dictSet (benKey idx " Nombre") ((dictGet (str "nombre") ben).getD []) d
  let d := dictSet (benKey idx " RUT") ((dictGet (str "rut") ben).getD []) d
  let d := dictSet (benKey idx " Parentesco") ((dictGet (str "parentesco") ben).getD []) d
  let d := match dictGet (str "sexo") ben with
    | some v => if !v.isEmpty then dictSet (benKey idx " Sexo") v d else d
    | none => d
  let d := match dictGet (str "invalidez") ben with
    | some v => if !v.isEmpty then dictSet (benKey idx " Invalidez") v d else d
    | none => d
  let d := match dictGet (str "fecha_nacimiento") ben with
    | some v => if !v.isEmpty then dictSet (benKey idx " Fecha de Nacimiento") v d else d
    | none => d
  d

/-- The `Beneficiario {idx} ...` flattening loop. -/
def flattenBens (bens : List (List (Str × Str))) (data : List (Str × Str)) :
    List (Str × Str) :=
  bens.enum.foldl flattenStep data

/-- `extract_contract_data`. -/
def extractContractData (text : Str) : List (Str × Str) :=
  if text.isEmpty then []
  else
    let data := patternStage text
    let data :=
      match dictGet (str "RUT") data with
      | some _ => data
      | none =>
        match rutSearch text with
        | some v => dictSet (str "RUT") v data
        | none => data
    flattenBens (extractBeneficiariesFromReport text) data

/-! ## Document model (python-docx objects) and the Regime B filler -/

structure Run where
  text : Str
deriving DecidableEq, Repr

structure Paragraph where
  runs : List Run
deriving DecidableEq, Repr

structure Cell where
  paragraphs : List Paragraph
deriving DecidableEq, Repr

structure Row where
  cells : List Cell
deriving DecidableEq, Repr

structure Table where
  gridCols : Nat
  rows : List Row
deriving DecidableEq, Repr

structure Doc where
  paragraphs : List Paragraph
  tables : List Table
deriving DecidableEq, Repr

/-- `Paragraph.text` getter: concatenation of run texts. -/
def paraText (p : Paragraph) : Str := (p.runs.map Run.text).flatten

/-- `_Cell.text` getter: paragraph texts joined by newlines. -/
def cellText (c : Cell) : Str := joinWith ['\n'] (c.paragraphs.map paraText)

/-- `"".join(cell.text for cell in row.cells)`. -/
def rowText (r : Row) : Str := (r.cells.map cellText).flatten

/-- `_Cell.text` setter: content replaced by one paragraph with one run. -/
def setCellText (txt : Str) : Cell := ⟨[⟨[⟨txt⟩]⟩]⟩

/-- A cell of a freshly added row: one empty paragraph, no runs. -/
def emptyCell : Cell := ⟨[⟨[]⟩]⟩

/-- The `placeholders_map` of `fill_beneficiary_placeholders`, in source
(dict-literal) order. -/
def placeholdersMap : List (Str × Str) :=
  [(str "{NOMBRE BENEFICIARIO}", str "nombre"),
   (str "{RUT BENEFICIARIO}", str "rut"),
   (str "{FECHA NACIMIENTO  BENEFICIARIO}", str "fecha_nacimiento"),
   (str "{FECHA NACIMIENTO BENEFICIARIO}", str "fecha_nacimiento"),
   (str "{PARENTESCO}", str "parentesco"),
   (str "{F o M}", str "sexo"),
   (str "{SI o No}", str "invalidez")]

/-- Run-level pass of `_fill_row` on one run's text: each placeholder is
checked against the current text and replaced in sequence; the flag records
whether any placeholder was found. -/
def runFill (data : List (Str × Str)) (t : Str) : Str × Bool :=
  placeholdersMap.foldl
    (fun acc pk =>
      if isSub pk.1 acc.1 then
        (replaceAll pk.1 ((dictGet pk.2 data).getD []) acc.1, true)
      else acc) (t, false)

/-- The paragraph-level fallback substitution: every placeholder replaced in
sequence on the paragraph text. -/
def substAllTags (data : List (Str × Str)) (t : Str) : Str :=
  placeholdersMap.foldl (fun txt pk => replaceAll pk.1 ((dictGet pk.2 data).getD []) txt) t

/-- `_fill_row`'s treatment of one paragraph: run-level replacement first;
if no run contained any placeholder but the paragraph text does, rewrite the
whole paragraph (via the `paragraph.text` setter) with the substituted text. -/
def fillParagraph (data : List (Str × Str)) (p : Paragraph) : Paragraph :=
  let results := p.runs.map (fun r => runFill data r.text)
  let modified := results.any (·.2)
  let runs' := results.map (fun x => Run.mk x.1)
  if modified then ⟨runs'⟩
  else
    let txt := paraText p
    if placeholdersMap.any (fun pk => isSub pk.1 txt) then
      let newText := substAllTags data txt
      if newText ≠ txt then ⟨[⟨newText⟩]⟩ else ⟨runs'⟩
    else ⟨runs'⟩

/-- `_fill_row`. -/
def fillRow (data : List (Str × Str)) (row : Row) : Row :=
  ⟨row.cells.map (fun c => ⟨c.paragraphs.map (fillParagraph data)⟩)⟩

def markerTag : Str := str "{NOMBRE BENEFICIARIO}"

/-- First row whose concatenated cell text contains the marker tag. -/
def findTemplateRowIdx (t : Table) : Option Nat :=
  t.rows.findIdx? (fun r => isSub markerTag (rowText r))

/-- `table.add_row()` (grid-wide empty cells) followed by the text-copy loop
`new_row.cells[j].text = template_row.cells[j].text` for the indices both
rows share. -/
def cloneRowFromTemplate (gridCols : Nat) (tmplRow : Row) : Row :=
  ⟨(List.range gridCols).map
    (fun j =>
      match tmplRow.cells.get? j with
      | some c => setCellText (cellText c)
      | none => emptyCell)⟩

/-- Per-table body of `fill_beneficiary_placeholders`: locate the template
row, fill it with the first beneficiary (or clear it when there are none),
then append one cloned-and-filled row per remaining beneficiary.  The clone
copies the template row's cell text in its *current* (already filled)
state, exactly as the source does. -/
def fillTable (bens : List (List (Str × Str))) (t : Table) : Table :=
  match findTemplateRowIdx t with
  | none => t
  | some i =>
    match t.rows.get? i with
    | none => t
    | some trow =>
      let filledT :=
        match bens with
        | b :: _ => fillRow b trow
        | [] => fillRow [] trow
      let rows1 := t.rows.set i filledT
      let newRows :=
        (bens.drop 1).map (fun b => fillRow b (cloneRowFromTemplate t.gridCols filledT))
      ⟨t.gridCols, rows1 ++ newRows⟩

/-- The `for table in tables` loop (the `ben_idx` counter in the source is
initialised and never used; it is threaded here for fidelity and ignored). -/
def fillTablesLoop (bens : List (List (Str × Str))) (benIdx : Nat) :
    List Table → List Table
  | [] => []
  | t :: ts => fillTable bens t :: fillTablesLoop bens benIdx ts

/-- `fill_beneficiary_placeholders`. -/
def fillBeneficiaryPlaceholders (doc : Doc) (bens : List (List (Str × Str))) : Doc :=
  ⟨doc.paragraphs, fillTablesLoop bens 0 doc.tables⟩

/-! ## The generation entry point `generate_contract_docx` -/

inductive CtxVal where
  | s (v : Str)
  | bens (l : List (List (Str × Str)))
deriving DecidableEq, Repr

abbrev Ctx := List (Str × CtxVal)

def ctxSet (k : Str) (v : CtxVal) : Ctx → Ctx
  | [] => [(k, v)]
  | (k', v') :: t => if k' = k then (k, v) :: t else (k', v') :: ctxSet k v t

def mapDocRuns (f : Str → Str) (d : Doc) : Doc :=
  let mp := fun (p : Paragraph) => Paragraph.mk (p.runs.map (fun r => Run.mk (f r.text)))
  ⟨d.paragraphs.map mp,
   d.tables.map (fun t =>
     Table.mk t.gridCols (t.rows.map (fun r =>
       Row.mk (r.cells.map (fun c => Cell.mk (c.paragraphs.map mp))))))⟩

/-- Modelled from the spec: the external templating engine (docxtpl) is not
part of this repository; per the spec it renders "templating-language tags
(double-brace variables) for scalar fields ... using the supplied context
dictionary".  It substitutes `{{key}}` with each string-valued context
entry, everywhere in the document. -/
def renderModel (ctx : Ctx) (d : Doc) : Doc :=
  mapDocRuns
    (fun t =>
      ctx.foldl
        (fun txt kv =>
          match kv.2 with
          | .s v => replaceAll (str "\x7b\x7b" ++ kv.1 ++ str "\x7d\x7d") v txt
          | .bens _ => txt) t) d

inductive PyErr where
  | fileNotFound (msg : Str)
  | exc (msg : Str)
deriving DecidableEq, Repr

instance : DecidableEq (Except PyErr Doc) := fun a b =>
  match a, b with
  | .error e, .error f =>
    decidable_of_iff (e = f) ⟨fun h => by rw [h], fun h => by cases h; rfl⟩
  | .error _, .ok _ => isFalse (by intro h; cases h)
  | .ok _, .error _ => isFalse (by intro h; cases h)
  | .ok x, .ok y =>
    decidable_of_iff (x = y) ⟨fun h => by rw [h], fun h => by cases h; rfl⟩

instance {α : Type} [DecidableEq α] : DecidableEq (Except PyErr α) := fun a b =>
  match a, b with
  | .error e, .error f =>
    decidable_of_iff (e = f) ⟨fun h => by rw [h], fun h => by cases h; rfl⟩
  | .error _, .ok _ => isFalse (by intro h; cases h)
  | .ok _, .error _ => isFalse (by intro h; cases h)
  | .ok x, .ok y =>
    decidable_of_iff (x = y) ⟨fun h => by rw [h], fun h => by cases h; rfl⟩

def errMsg : PyErr → Str
  | .fileNotFound m => m
  | .exc m => m

/-- The injectable effectful collaborators of `generate_contract_docx`:
loading the template (`DocxTemplate(...)`), the engine render pass
(`doc.render(context)`), and serialisation (`doc.save`); each may raise. -/
structure GenStages where
  load : Except PyErr Doc
  render : Ctx → Doc → Except PyErr Doc
  save : Doc → Except PyErr Doc

structure GenResult where
  outcome : Except PyErr Doc
  ctxAfter : Ctx
deriving DecidableEq, Repr

/-- `if beneficiaries_list:` — `None` and `[]` are falsy. -/
def bensTruthy : Option (List (List (Str × Str))) → Bool
  | some (_ :: _) => true
  | _ => false

/-- `generate_contract_docx`: existence check (raising before any
processing), template load, context mutation, the manual beneficiary pass,
then the engine render, then save; every exception is logged and re-raised,
so it surfaces as `.error`.  The result records the final state of the
caller-supplied context dictionary. -/
def generateContractDocx (st : GenStages) (pathExists : Bool) (ctx : Ctx)
    (bensOpt : Option (List (List (Str × Str)))) : GenResult :=
  if pathExists = false then ⟨.error (.fileNotFound (str "Template not found")), ctx⟩
  else
    match st.load with
    | .error e => ⟨.error e, ctx⟩
    | .ok doc =>
      let bl := bensOpt.getD []
      let ctx1 := if bensTruthy bensOpt then ctxSet (str "beneficiaries") (.bens bl) ctx else ctx
      let doc1 := if bensTruthy bensOpt then fillBeneficiaryPlaceholders doc bl else doc
      match st.render ctx1 doc1 with
      | .error e => ⟨.error e, ctx1⟩
      | .ok doc2 =>
        match st.save doc2 with
        | .error e => ⟨.error e, ctx1⟩
        | .ok saved => ⟨.ok saved, ctx1⟩

/-- Refinement comparator following the spec's ordering words for Regime B:
the engine render pass completes *before* the manual beneficiary-tag pass,
so the tag scan observes the post-render document. -/
def generateContractSpecOrder (st : GenStages) (pathExists : Bool) (ctx : Ctx)
    (bensOpt : Option (List (List (Str × Str)))) : GenResult :=
  if pathExists = false then ⟨.error (.fileNotFound (str "Template not found")), ctx⟩
  else
    match st.load with
    | .error e => ⟨.error e, ctx⟩
    | .ok doc =>
      let bl := bensOpt.getD []
      let ctx1 := if bensTruthy bensOpt then ctxSet (str "beneficiaries") (.bens bl) ctx else ctx
      match st.render ctx1 doc with
      | .error e => ⟨.error e, ctx1⟩
      | .ok docR =>
        let doc2 := if bensTruthy bensOpt then fillBeneficiaryPlaceholders docR bl else docR
        match st.save doc2 with
        | .error e => ⟨.error e, ctx1⟩
        | .ok saved => ⟨.ok saved, ctx1⟩

/-! ## The legacy Regime A filler `fill_contract_template` -/

/-- Legacy `replace_text_in_paragraph` (root `contract_utils.py`): each key
contained in the current paragraph text is replaced; the flag records
whether any reassignment of `paragraph.text` happened. -/
def legacyReplaceText (repl : List (Str × Str)) (t : Str) : Str × Bool :=
  repl.foldl
    (fun acc kv =>
      if isSub kv.1 acc.1 then (replaceAll kv.1 kv.2 acc.1, true) else acc)
    (t, false)

def legacyFillParagraph (repl : List (Str × Str)) (p : Paragraph) : Paragraph :=
  let r := legacyReplaceText repl (paraText p)
  if r.2 then ⟨[⟨r.1⟩]⟩ else p

def legacyFillDoc (repl : List (Str × Str)) (d : Doc) : Doc :=
  ⟨d.paragraphs.map (legacyFillParagraph repl),
   d.tables.map (fun t =>
     Table.mk t.gridCols (t.rows.map (fun r =>
       Row.mk (r.cells.map (fun c =>
         Cell.mk (c.paragraphs.map (legacyFillParagraph repl)))))))⟩

inductive FillRet where
  | bytes (d : Doc)
  | pairNoneMsg (msg : Str)
deriving DecidableEq, Repr

/-- Legacy `fill_contract_template`: the whole body is wrapped in
`try: ... except Exception as e: return None, str(e)` — an exception from
opening the template or from serialisation is caught and turned into a
normal `(None, str(e))` return value, never re-raised.  The outer `Except`
layer is the function's raising behaviour: it is always `.ok`. -/
def fillContractTemplate (load : Except PyErr Doc) (save : Doc → Except PyErr Doc)
    (dataDict : List (Str × Str)) : Except PyErr FillRet :=
  match load with
  | .error e => .ok (.pairNoneMsg (errMsg e))
  | .ok doc =>
    let doc' := legacyFillDoc dataDict doc
    match save doc' with
    | .error e => .ok (.pairNoneMsg (errMsg e))
    | .ok saved => .ok (.bytes saved)

/-! ## Basic lemmas about the Python-operation models -/

theorem isSub_infix_equiv (pat : Str) : ∀ s : Str, isSub pat s = true ↔ pat <:+: s := by
  intro s
  induction s with
  | nil =>
    simp only [isSub]
    constructor
    · intro h
      have : pat = [] := by simpa using h
      simp [this]
    · intro h
      have := List.eq_nil_of_infix_nil h
      simp [this]
  | cons c t ih =>
    simp only [isSub, Bool.or_eq_true, List.isPrefixOf_iff_prefix, ih,
      List.infix_cons_iff]

theorem isSub_char_mem {pat s : Str} (h : isSub pat s = true) {c : Char}
    (hc : c ∈ pat) : c ∈ s := by
  rw [isSub_infix_equiv] at h
  exact h.subset hc

theorem dictGet_dictSet_self (k v : Str) : ∀ d, dictGet k (dictSet k v d) = some v := by
  intro d
  induction d with
  | nil => simp [dictSet, dictGet]
  | cons kv t ih =>
    obtain ⟨k', v'⟩ := kv
    by_cases h : k' = k
    · simp [dictSet, dictGet, h]
    · simp [dictSet, dictGet, h, ih]

theorem dictGet_dictSet_ne {k k' : Str} (h : k' ≠ k) (v : Str) :
    ∀ d, dictGet k (dictSet k' v d) = dictGet k d := by
  intro d
  induction d with
  | nil => simp [dictSet, dictGet, h]
  | cons kv t ih =>
    obtain ⟨k₀, v₀⟩ := kv
    have h' : k ≠ k' := fun hh => h hh.symm
    by_cases h0 : k₀ = k'
    · subst h0
      simp [dictSet, dictGet, h]
    · by_cases h1 : k₀ = k
      · simp [dictSet, dictGet, h0, h1, h']
      · simp [dictSet, dictGet, h0, h1, ih]

theorem dictGet_dictSet (k k' v : Str) (d : List (Str × Str)) :
    dictGet k (dictSet k' v d) = if k' = k then some v else dictGet k d := by
  by_cases h : k' = k
  · subst h; simp [dictGet_dictSet_self]
  · simp [h, dictGet_dictSet_ne h]

theorem head?_dropWhile_not (p : Char → Bool) :
    ∀ (s : Str) (c : Char), (s.dropWhile p).head? = some c → p c = false := by
  intro s
  induction s with
  | nil => intro c h; simp [List.dropWhile] at h
  | cons a t ih =>
    intro c h
    by_cases hp : p a
    · rw [List.dropWhile_cons_of_pos hp] at h
      exact ih c h
    · rw [List.dropWhile_cons_of_neg hp] at h
      simp only [List.head?_cons, Option.some.injEq] at h
      subst h
      simpa using hp

theorem getLast?_of_suffix {xs ys : Str} (h : xs <:+ ys) (hne : xs ≠ []) :
    xs.getLast? = ys.getLast? := by
  obtain ⟨zs, rfl⟩ := h
  exact (List.getLast?_append_of_ne_nil zs hne).symm

/-- A string whose first and last characters are not whitespace strips to
itself. -/
theorem pyStrip_eq_self {s : Str}
    (h1 : ∀ c, s.head? = some c → pySpace c = false)
    (h2 : ∀ c, s.getLast? = some c → pySpace c = false) :
    pyStrip s = s := by
  unfold pyStrip
  have hd : s.dropWhile pySpace = s := by
    cases s with
    | nil => rfl
    | cons c t =>
      have := h1 c rfl
      simp [List.dropWhile, this]
  rw [hd]
  cases hrev : s.reverse with
  | nil => simpa using congrArg List.reverse hrev
  | cons c t =>
    have hlast : s.getLast? = some c := by
      rw [List.getLast?_eq_head?_reverse, hrev]; rfl
    have := h2 c hlast
    simp [List.dropWhile, this, ← hrev]

theorem pyStrip_idem (s : Str) : pyStrip (pyStrip s) = pyStrip s := by
  rcases hs : pyStrip s with _ | ⟨c, t⟩
  · rfl
  · rw [← hs]
    apply pyStrip_eq_self
    · intro c' hc'
      have hY : pyStrip s = ((s.dropWhile pySpace).reverse.dropWhile pySpace).reverse := rfl
      rw [hY, ← List.getLast?_reverse, List.reverse_reverse] at hc'
      have hne : (s.dropWhile pySpace).reverse.dropWhile pySpace ≠ [] := by
        intro hnil
        rw [hY, hnil] at hs
        simp at hs
      have hsuf := List.dropWhile_suffix (l := (s.dropWhile pySpace).reverse) pySpace
      rw [getLast?_of_suffix hsuf hne, List.getLast?_reverse] at hc'
      exact head?_dropWhile_not pySpace s c' hc'
    · intro c' hc'
      have hY : pyStrip s = ((s.dropWhile pySpace).reverse.dropWhile pySpace).reverse := rfl
      rw [hY, List.getLast?_reverse] at hc'
      exact head?_dropWhile_not pySpace _ c' hc'

/-! ## Claim C7: section-marker behaviour of the beneficiary parser -/

theorem ciPrefix_prefix_lowStr {pat : Str} (hfix : ∀ p ∈ pat, lowChar p = p) :
    ∀ s : Str, ciPrefix pat s = true → pat <+: lowStr s := by
  induction pat with
  | nil => intro s _; simp [lowStr]
  | cons p ps ih =>
    intro s h
    cases s with
    | nil => simp [ciPrefix] at h
    | cons c cs =>
      simp only [ciPrefix, Bool.and_eq_true] at h
      have hp : lowChar p = p := hfix p (by simp)
      have hc : p = lowChar c := by
        have h1 := h.1
        simp only [ciEq, decide_eq_true_eq] at h1
        rw [← hp, h1]
      have tail := ih (fun q hq => hfix q (by simp [hq])) cs h.2
      show p :: ps <+: lowStr (c :: cs)
      have hlow : lowStr (c :: cs) = lowChar c :: lowStr cs := rfl
      rw [hlow, ← hc]
      exact List.cons_prefix_cons.mpr ⟨rfl, tail⟩

theorem phraseLower_fixed : ∀ p ∈ phraseLower, lowChar p = p := by decide

theorem lowStr_drop (s : Str) (n : Nat) : lowStr (s.drop n) = (lowStr s).drop n := by
  simp [lowStr, List.map_drop]

/-- Any successful marker-regex attempt contains the phrase
case-insensitively. -/
theorem matchMarkerAt_phrase {s : Str} {k : Nat} (h : matchMarkerAt s = some k) :
    isSub phraseLower (lowStr s) = true := by
  have main : ∃ j, ciPrefix phraseLower (s.drop j) = true := by
    simp only [matchMarkerAt] at h
    split at h
    · split at h
      · rename_i hp
        refine ⟨2 + countWhile pySpace (s.drop 2), ?_⟩
        rw [← List.drop_drop]
        exact hp
      · exact absurd h (by simp)
    · split at h
      · exact absurd h (by simp)
      · split at h
        · rename_i c rest2 hs
          split at h
          · split at h
            · rename_i hp
              refine ⟨countWhile isDigitB s + 1 + countWhile pySpace rest2, ?_⟩
              have h1 : s.drop (countWhile isDigitB s + 1) = rest2 := by
                rw [← List.drop_drop, hs]
                rfl
              rw [← List.drop_drop, h1]
              exact hp
            · exact absurd h (by simp)
          · exact absurd h (by simp)
        · exact absurd h (by simp)
  obtain ⟨j, hj⟩ := main
  have hpre := ciPrefix_prefix_lowStr phraseLower_fixed _ hj
  rw [lowStr_drop] at hpre
  rw [isSub_infix_equiv]
  exact hpre.isInfix.trans (List.drop_suffix _ _).isInfix

theorem findMarkerEndAux_phrase :
    ∀ (s : Str) (pos e : Nat), findMarkerEndAux s pos = some e →
      isSub phraseLower (lowStr s) = true := by
  intro s
  induction s with
  | nil => intro pos e h; simp [findMarkerEndAux] at h
  | cons c t ih =>
    intro pos e h
    unfold findMarkerEndAux at h
    rcases hm : matchMarkerAt (c :: t) with _ | k
    · rw [hm] at h
      have := ih (pos + 1) e h
      rw [isSub_infix_equiv] at this ⊢
      exact this.trans (List.suffix_cons (lowChar c) (lowStr t)).isInfix
    · exact matchMarkerAt_phrase hm

/-- C7 counterexample input: the phrase appears verbatim (hence
case-insensitively) with a well-formed table beneath it, but without the
`##`/`N.`/`N)` prefix the regex requires. -/
def c7text : Str :=
  str "Antecedentes del beneficiario\n| Nombre | RUT |\n| Juan | 1.111.111-1 |"

/-- C7 (counterexample): a report text that contains the marker phrase
case-insensitively, yet the parser returns the empty sequence — refuting
both "every text containing the phrase case-insensitively is treated as
having the section" and "empty exactly when the phrase is absent". -/
theorem extract_beneficiaries_marker_counterexample :
    isSub phraseLower (lowStr c7text) = true ∧
      extractBeneficiariesFromReport c7text = [] := by decide

/-- C7 (amended): the parser returns the empty sequence, without failing,
whenever the *anchored* marker (the phrase preceded by `##` or a number
with `.`/`)`) is absent; and a non-empty result implies the anchored marker
matched — in particular the phrase occurs case-insensitively.  (A marked
occurrence with no parsable table also yields the empty sequence, so
emptiness is not equivalent to absence of the marker.) -/
theorem extract_beneficiaries_marker_behavior (text : Str) :
    (findMarkerEnd text = none → extractBeneficiariesFromReport text = []) ∧
      (extractBeneficiariesFromReport text ≠ [] →
        findMarkerEnd text ≠ none ∧ isSub phraseLower (lowStr text) = true) := by
  constructor
  · intro h
    unfold extractBeneficiariesFromReport
    rw [h]
  · intro h
    rcases hm : findMarkerEnd text with _ | e
    · exfalso
      apply h
      unfold extractBeneficiariesFromReport
      rw [hm]
    · exact ⟨by simp, findMarkerEndAux_phrase text 0 e hm⟩

/-- Witness for the amended C7 theorem at a concrete input: a text without
the anchored marker parses to the empty sequence. -/
theorem extract_beneficiaries_marker_behavior_witness :
    extractBeneficiariesFromReport (str "no marker here") = [] := by
  exact (extract_beneficiaries_marker_behavior (str "no marker here")).1 (by decide)

/-! ## Claim C5: the national-ID fallback of the field extractor -/

def isLetter (c : Char) : Bool := ('a' ≤ c && c ≤ 'z') || ('A' ≤ c && c ≤ 'Z')

/-- The shape the claim describes: *two* digits, dot, three digits, dot,
three digits, dash, one check digit or letter. -/
def isShape2Spec (v : Str) : Bool :=
  match v with
  | [a, b, '.', c, d, e, '.', f, g, h, '-', k] =>
    [a, b, c, d, e, f, g, h].all isDigitB && (isDigitB k || isLetter k)
  | _ => false

/-- First substring of the claimed two-digit shape. -/
def firstShape2Sub : Str → Option Str
  | [] => none
  | s@(_ :: t) =>
    if isShape2Spec (s.take 12) then some (s.take 12) else firstShape2Sub t

/-- The shape the code's regex actually captures: *one or two* digits, dot,
three digits, dot, three digits, dash, digit or `k`/`K`. -/
def isShapeCode (v : Str) : Bool :=
  match v with
  | [a, '.', c, d, e, '.', f, g, h, '-', k] =>
    [a, c, d, e, f, g, h].all isDigitB && (isDigitB k || k = 'k' || k = 'K')
  | [a, b, '.', c, d, e, '.', f, g, h, '-', k] =>
    [a, b, c, d, e, f, g, h].all isDigitB && (isDigitB k || k = 'k' || k = 'K')
  | _ => false

theorem rutTail_shape {s m after : Str} (h : rutTail s = some (m, after)) :
    ∃ d1 d2 d3 e1 e2 e3 k, m = ['.', d1, d2, d3, '.', e1, e2, e3, '-', k] ∧
      [d1, d2, d3, e1, e2, e3].all isDigitB = true ∧
      (isDigitB k || k = 'k' || k = 'K') = true := by
  unfold rutTail at h
  split at h
  · split at h
    · rename_i d1 d2 d3 e1 e2 e3 k rest hcond
      simp only [Option.some.injEq, Prod.mk.injEq] at h
      exact ⟨d1, d2, d3, e1, e2, e3, k, h.1.symm, by
        simp only [Bool.and_eq_true] at hcond
        exact hcond.1, by
        simp only [Bool.and_eq_true] at hcond
        exact hcond.2⟩
    · exact absurd h (by simp)
  · exact absurd h (by simp)

theorem rutTry2_shape {a : Char} {rest v : Str} (ha : isDigitB a = true)
    (h : rutTry2 a rest = some v) : isShapeCode v = true := by
  unfold rutTry2 at h
  split at h
  · rename_i b rest2
    split at h
    · rename_i hb
      split at h
      · rename_i m after ht
        split at h
        · simp only [Option.some.injEq] at h
          obtain ⟨d1, d2, d3, e1, e2, e3, k, hm, hdig, hk⟩ := rutTail_shape ht
          subst hm
          rw [← h]
          simp only [isShapeCode]
          simp only [List.all_cons, List.all_nil, Bool.and_eq_true, and_true] at hdig ⊢
          obtain ⟨g1, g2, g3, g4, g5, g6⟩ := hdig
          exact ⟨⟨ha, hb, g1, g2, g3, g4, g5, g6⟩, hk⟩
        · exact absurd h (by simp)
      · exact absurd h (by simp)
    · exact absurd h (by simp)
  · exact absurd h (by simp)

theorem rutTry1_shape {a : Char} {rest v : Str} (ha : isDigitB a = true)
    (h : rutTry1 a rest = some v) : isShapeCode v = true := by
  unfold rutTry1 at h
  split at h
  · rename_i m after ht
    split at h
    · simp only [Option.some.injEq] at h
      obtain ⟨d1, d2, d3, e1, e2, e3, k, hm, hdig, hk⟩ := rutTail_shape ht
      subst hm
      rw [← h]
      simp only [isShapeCode]
      simp only [List.all_cons, List.all_nil, Bool.and_eq_true, and_true] at hdig ⊢
      obtain ⟨g1, g2, g3, g4, g5, g6⟩ := hdig
      exact ⟨⟨ha, g1, g2, g3, g4, g5, g6⟩, hk⟩
    · exact absurd h (by simp)
  · exact absurd h (by simp)

theorem matchRutAt_shape {pw : Bool} {s v : Str} (h : matchRutAt pw s = some v) :
    isShapeCode v = true := by
  unfold matchRutAt at h
  split at h
  · exact absurd h (by simp)
  · split at h
    · exact absurd h (by simp)
    · rename_i a rest
      split at h
      · exact absurd h (by simp)
      · rename_i ha
        simp only [Bool.not_eq_true', Bool.not_eq_false] at ha
        rcases h2 : rutTry2 a rest with _ | r
        · rw [h2] at h
          exact rutTry1_shape ha h
        · rw [h2] at h
          simp only [Option.some.injEq] at h
          subst h
          exact rutTry2_shape ha h2

theorem findRutAux_shape : ∀ (s : Str) (pw : Bool) (v : Str),
    findRutAux pw s = some v → isShapeCode v = true := by
  intro s
  induction s with
  | nil => intro pw v h; simp [findRutAux] at h
  | cons c t ih =>
    intro pw v h
    unfold findRutAux at h
    rcases hm : matchRutAt pw (c :: t) with _ | m
    · rw [hm] at h
      exact ih (isWordChar c) v h
    · rw [hm] at h
      simp only [Option.some.injEq] at h
      subst h
      exact matchRutAt_shape hm

theorem rutSearch_shape {s v : Str} (h : rutSearch s = some v) : isShapeCode v = true :=
  findRutAux_shape s false v h

/-- The characters a code-shape value can contain. -/
def shapeChar (c : Char) : Bool :=
  isDigitB c || c = '.' || c = '-' || c = 'k' || c = 'K'

/-- Character inventory of a code-shape value. -/
theorem isShapeCode_chars {v : Str} (h : isShapeCode v = true) :
    ∀ c ∈ v, shapeChar c = true := by
  unfold isShapeCode at h
  split at h
  · rename_i a c1 d e f g h1 k
    simp only [Bool.and_eq_true, List.all_cons, List.all_nil, and_true,
      Bool.or_eq_true, decide_eq_true_eq] at h
    intro c hc
    simp only [List.mem_cons, List.not_mem_nil, or_false] at hc
    unfold shapeChar
    simp only [Bool.or_eq_true, decide_eq_true_eq]
    rcases hc with rfl | rfl | rfl | rfl | rfl | rfl | rfl | rfl | rfl | rfl | rfl <;>
      tauto
  · rename_i a b c1 d e f g h1 k
    simp only [Bool.and_eq_true, List.all_cons, List.all_nil, and_true,
      Bool.or_eq_true, decide_eq_true_eq] at h
    intro c hc
    simp only [List.mem_cons, List.not_mem_nil, or_false] at hc
    unfold shapeChar
    simp only [Bool.or_eq_true, decide_eq_true_eq]
    rcases hc with rfl | rfl | rfl | rfl | rfl | rfl | rfl | rfl | rfl | rfl | rfl | rfl <;>
      tauto
  · simp at h

theorem isShapeCode_ne_nil {v : Str} (h : isShapeCode v = true) : v ≠ [] := by
  unfold isShapeCode at h
  split at h <;> simp_all

theorem shapeChar_not_space {c : Char} (h : shapeChar c = true) : pySpace c = false := by
  unfold shapeChar at h
  simp only [Bool.or_eq_true, decide_eq_true_eq] at h
  rcases h with ((((hd | rfl) | rfl) | rfl) | rfl)
  · have n1 : c ≠ ' ' := fun hh => absurd (hh ▸ hd) (by decide)
    have n2 : c ≠ '\t' := fun hh => absurd (hh ▸ hd) (by decide)
    have n3 : c ≠ '\n' := fun hh => absurd (hh ▸ hd) (by decide)
    have n4 : c ≠ '\r' := fun hh => absurd (hh ▸ hd) (by decide)
    have n5 : c ≠ '\x0b' := fun hh => absurd (hh ▸ hd) (by decide)
    have n6 : c ≠ '\x0c' := fun hh => absurd (hh ▸ hd) (by decide)
    simp [pySpace, n1, n2, n3, n4, n5, n6]
  · decide
  · decide
  · decide
  · decide

theorem isShapeCode_strip {v : Str} (h : isShapeCode v = true) : pyStrip v = v := by
  apply pyStrip_eq_self
  · intro c hc
    have hmem : c ∈ v := by
      cases v with
      | nil => simp at hc
      | cons a t =>
        simp only [List.head?_cons, Option.some.injEq] at hc
        simp [hc]
    exact shapeChar_not_space (isShapeCode_chars h c hmem)
  · intro c hc
    have hmem : c ∈ v := by
      rw [List.getLast?_eq_head?_reverse] at hc
      have hrev : c ∈ v.reverse := by
        cases hv : v.reverse with
        | nil => rw [hv] at hc; simp at hc
        | cons a t =>
          rw [hv] at hc
          simp only [List.head?_cons, Option.some.injEq] at hc
          simp [hc]
      simpa using hrev
    exact shapeChar_not_space (isShapeCode_chars h c hmem)

theorem isShapeCode_no_sentinels {v : Str} (h : isShapeCode v = true) :
    isSub (str "No informada") v = false ∧ isSub (str "[Extraer") v = false := by
  constructor
  · by_contra hc
    simp only [Bool.not_eq_false] at hc
    have : 'N' ∈ v := isSub_char_mem hc (by decide)
    have := isShapeCode_chars h 'N' this
    exact absurd this (by decide)
  · by_contra hc
    simp only [Bool.not_eq_false] at hc
    have : '[' ∈ v := isSub_char_mem hc (by decide)
    have := isShapeCode_chars h '[' this
    exact absurd this (by decide)

/-! ### Key-preservation lemmas for the stages after the pattern loop -/

theorem benKey_head (i : Nat) (suffix : String) : (benKey i suffix).head? = some 'B' := rfl

theorem benKey_ne {k : Str} (hk : k.head? ≠ some 'B') (i : Nat) (suffix : String) :
    benKey i suffix ≠ k := fun h => hk (h ▸ benKey_head i suffix)

theorem dictGet_dictSet_benKey {k : Str} (hk : k.head? ≠ some 'B') (i : Nat)
    (suffix : String) (v : Str) (d : List (Str × Str)) :
    dictGet k (dictSet (benKey i suffix) v d) = dictGet k d :=
  dictGet_dictSet_ne (benKey_ne hk i suffix) v d

theorem dictGet_flattenStep {k : Str} (hk : k.head? ≠ some 'B')
    (d : List (Str × Str)) (ib : Nat × List (Str × Str)) :
    dictGet k (flattenStep d ib) = dictGet k d := by
  obtain ⟨i, ben⟩ := ib
  unfold flattenStep
  simp only
  rcases h1 : dictGet (str "sexo") ben with _ | v1 <;>
    rcases h2 : dictGet (str "invalidez") ben with _ | v2 <;>
    rcases h3 : dictGet (str "fecha_nacimiento") ben with _ | v3 <;>
    simp only [h1, h2, h3] <;>
    (try split_ifs) <;>
    simp [dictGet_dictSet_benKey hk]

theorem dictGet_flattenBens {k : Str} (hk : k.head? ≠ some 'B')
    (bens : List (List (Str × Str))) (d : List (Str × Str)) :
    dictGet k (flattenBens bens d) = dictGet k d := by
  unfold flattenBens
  generalize bens.enum = l
  induction l generalizing d with
  | nil => rfl
  | cons ib t ih =>
    rw [List.foldl_cons, ih, dictGet_flattenStep hk]

/-- C5 counterexample input: no labelled national-ID field, a bare ID with a
*one*-digit leading group earlier in the text, and a two-digit-shaped ID
later. -/
def c5text : Str := str "a 1.234.567-8 y 22.222.222-2"

/-- C5 (counterexample): the text contains a substring of the claimed fixed
shape (two digits, dot, three digits, dot, three digits, dash, check
digit/letter) — the first one is "22.222.222-2" — and no labelled
national-ID field, yet the extractor's national-ID value is the *earlier*
"1.234.567-8", which does not have the claimed two-digit shape at all. -/
theorem extract_rut_fallback_counterexample :
    dictGet (str "RUT") (patternStage c5text) = none ∧
    firstShape2Sub c5text = some (str "22.222.222-2") ∧
    dictGet (str "RUT") (extractContractData c5text) = some (str "1.234.567-8") ∧
    isShape2Spec (str "1.234.567-8") = false := by decide

/-- C5 (amended): when no national-ID was captured by label, the output
national-ID equals the first match of the code's fallback regex
`\b(\d{1,2}\.\d{3}\.\d{3}-[\dkK])\b` — *one or two* leading digits and a
`digit`/`k`/`K` check character — if any; every fallback value has that
shape; and on a labelled line the labelled capture and the bare-text
fallback agree (Scenario 2). -/
theorem extract_rut_fallback (text : Str)
    (h : dictGet (str "RUT") (patternStage text) = none) :
    dictGet (str "RUT") (extractContractData text) = rutSearch text ∧
    (∀ v, rutSearch text = some v → isShapeCode v = true) ∧
    dictGet (str "RUT") (extractContractData (str "**RUT:** 22.222.222-2")) =
      dictGet (str "RUT") (extractContractData (str "informe: 22.222.222-2 fin")) := by
  refine ⟨?_, fun v hv => rutSearch_shape hv, by decide⟩
  unfold extractContractData
  by_cases he : text.isEmpty
  · rw [if_pos he]
    have : text = [] := List.isEmpty_iff.mp he
    subst this
    simp [dictGet, rutSearch, findRutAux]
  · rw [if_neg he]
    simp only [h]
    have hB : (str "RUT").head? ≠ some 'B' := by decide
    rcases hr : rutSearch text with _ | v
    · rw [dictGet_flattenBens hB, h]
    · rw [dictGet_flattenBens hB, dictGet_dictSet_self]

/-- Witness for the amended C5 theorem at the counterexample text (which has
no labelled national-ID). -/
theorem extract_rut_fallback_witness :
    dictGet (str "RUT") (extractContractData c5text) = rutSearch c5text :=
  (extract_rut_fallback c5text (by decide)).1

/-! ## Claim C6: placeholder-value rejection invariant of the field extractor -/

/-- The invariant each stored enumerated-field value satisfies. -/
def cleanVal (v : Str) : Prop :=
  v ≠ [] ∧ pyStrip v = v ∧
    isSub (str "No informada") v = false ∧ isSub (str "[Extraer") v = false

theorem acceptVal_clean {v : Str} (hs : pyStrip v = v) (h : acceptVal v = true) :
    cleanVal v := by
  unfold acceptVal at h
  simp only [Bool.and_eq_true, Bool.not_eq_true'] at h
  refine ⟨?_, hs, h.1.2, h.2⟩
  intro hnil
  subst hnil
  simp at h

theorem patternStep_values {text : Str} {d : List (Str × Str)}
    (hd : ∀ k v, dictGet k d = some v → cleanVal v) (fp : Str × List (List PTok)) :
    ∀ k v, dictGet k (patternStep text d fp) = some v → cleanVal v := by
  intro k v h
  unfold patternStep at h
  rcases hf : findField fp.2 text with _ | raw
  · rw [hf] at h; exact hd k v h
  · rw [hf] at h
    simp only at h
    split at h
    · rename_i hacc
      rw [dictGet_dictSet] at h
      split at h
      · cases h
        exact acceptVal_clean (pyStrip_idem raw) hacc
      · exact hd k v h
    · exact hd k v h

theorem foldl_patternStep_values {text : Str} :
    ∀ (l : List (Str × List (List PTok))) (d : List (Str × Str)),
      (∀ k v, dictGet k d = some v → cleanVal v) →
      ∀ k v, dictGet k (l.foldl (patternStep text) d) = some v → cleanVal v := by
  intro l
  induction l with
  | nil => intro d hd; exact hd
  | cons fp t ih =>
    intro d hd
    rw [List.foldl_cons]
    exact ih _ (patternStep_values hd fp)

theorem patternStage_values {text : Str} :
    ∀ k v, dictGet k (patternStage text) = some v → cleanVal v := by
  unfold patternStage
  exact foldl_patternStep_values fieldPatterns [] (by intro k v h; simp [dictGet] at h)

/-- Values stored by the national-ID fallback are clean. -/
theorem rutSearch_clean {text v : Str} (h : rutSearch text = some v) : cleanVal v := by
  have hs := rutSearch_shape h
  obtain ⟨h1, h2⟩ := isShapeCode_no_sentinels hs
  exact ⟨isShapeCode_ne_nil hs, isShapeCode_strip hs, h1, h2⟩

/-- Every value the extractor stores under an enumerated field label is
non-empty, trimmed and sentinel-free. -/
theorem extractContractData_values {text : Str} {k v : Str}
    (hk : k.head? ≠ some 'B') (h : dictGet k (extractContractData text) = some v) :
    cleanVal v := by
  unfold extractContractData at h
  split at h
  · simp [dictGet] at h
  · rw [dictGet_flattenBens hk] at h
    rcases hr : dictGet (str "RUT") (patternStage text) with _ | w
    · rw [hr] at h
      rcases hf : rutSearch text with _ | u
      · rw [hf] at h
        exact patternStage_values k v h
      · rw [hf] at h
        rw [dictGet_dictSet] at h
        split at h
        · cases h
          exact rutSearch_clean hf
        · exact patternStage_values k v h
    · rw [hr] at h
      exact patternStage_values k v h

/-- A per-key description of one pattern-loop iteration for a *different*
key. -/
theorem dictGet_patternStep_ne {text : Str} {d : List (Str × Str)}
    {fp : Str × List (List PTok)} {k : Str} (hne : fp.1 ≠ k) :
    dictGet k (patternStep text d fp) = dictGet k d := by
  unfold patternStep
  rcases hf : findField fp.2 text with _ | raw
  · rfl
  · simp only
    split
    · exact dictGet_dictSet_ne hne _ _
    · rfl

/-- The rejection behaviour of one iteration whose key *is* `k`. -/
theorem foldl_patternStep_rejected {text : Str} {k : Str} :
    ∀ (l : List (Str × List (List PTok))) (d : List (Str × Str)),
      (∀ fp ∈ l, fp.1 = k →
        ∀ raw, findField fp.2 text = some raw → acceptVal (pyStrip raw) = false) →
      dictGet k (l.foldl (patternStep text) d) = dictGet k d := by
  intro l
  induction l with
  | nil => intro d _; rfl
  | cons fp t ih =>
    intro d hl
    rw [List.foldl_cons]
    rw [ih _ (fun fp' hm => hl fp' (by simp [hm]))]
    by_cases hk : fp.1 = k
    · unfold patternStep
      rcases hf : findField fp.2 text with _ | raw
      · rfl
      · simp only
        rw [if_neg (by simp [hl fp (by simp) hk raw hf])]
    · exact dictGet_patternStep_ne hk

theorem fieldPatterns_keys_nodup : (fieldPatterns.map (·.1)).Nodup := by decide

theorem fieldPatterns_keys_not_ben :
    ∀ k ∈ fieldPatterns.map (·.1), k.head? ≠ some 'B' := by decide

/-- C6: placeholder-value rejection invariant — (i) every enumerated field
present in the output holds a non-empty, trimmed value free of the
"No informada" and "[Extraer" sentinels (so no empty or
unresolved-placeholder value is ever stored); (ii) for every enumerated
field other than the national-ID (which has the separate bare-text
fallback), if the labelled match's value is rejected the field is absent
from the output. -/
theorem extract_placeholder_rejection (text : Str) (fp : Str × List (List PTok))
    (hfp : fp ∈ fieldPatterns) :
    (∀ v, dictGet fp.1 (extractContractData text) = some v →
      v ≠ [] ∧ pyStrip v = v ∧
        isSub (str "No informada") v = false ∧ isSub (str "[Extraer") v = false) ∧
    (fp.1 ≠ str "RUT" →
      ∀ raw, findField fp.2 text = some raw → acceptVal (pyStrip raw) = false →
        dictGet fp.1 (extractContractData text) = none) := by
  have hk : fp.1.head? ≠ some 'B' :=
    fieldPatterns_keys_not_ben _ (List.mem_map_of_mem _ hfp)
  constructor
  · intro v h
    exact extractContractData_values hk h
  · intro hrut raw hfind hrej
    unfold extractContractData
    split
    · simp [dictGet]
    · rw [dictGet_flattenBens hk]
      have hstage : dictGet fp.1 (patternStage text) = none := by
        unfold patternStage
        rw [foldl_patternStep_rejected fieldPatterns []]
        · rfl
        · intro fp' hm hkey raw' hfind'
          have : fp' = fp :=
            List.inj_on_of_nodup_map fieldPatterns_keys_nodup hm hfp hkey
          subst this
          rw [hfind'] at hfind
          cases hfind
          exact hrej
      rcases hr : dictGet (str "RUT") (patternStage text) with _ | w
      · rcases hf : rutSearch text with _ | u
        · exact hstage
        · rw [dictGet_dictSet_ne (fun hh => hrut hh.symm), hstage]
      · exact hstage

/-- Witness for C6 at a concrete input: Scenario 3 — a report whose
"Nombre Completo" line holds the "[Extraer" placeholder ends with the field
absent, and, e.g., the stored "Comuna" value of a well-formed line is
clean. -/
theorem extract_placeholder_rejection_witness :
    dictGet (str "Nombre Completo")
      (extractContractData (str "**Nombre Completo:** [Extraer]\n**Comuna:** Macul")) =
      none := by
  have h := extract_placeholder_rejection
    (str "**Nombre Completo:** [Extraer]\n**Comuna:** Macul")
    (str "Nombre Completo", [pTokens (lits "Nombre Completo")]) (by decide)
  exact h.2 (by decide) (str "[Extraer]") (by decide) (by decide)

/-! ## Claim C8: run-level mismatch recovery in `_fill_row` -/

/-- A paragraph in which one tag sits whole inside a run and the marker tag
is split across two runs. -/
def c8para : Paragraph :=
  ⟨[⟨str "{PARENTESCO}"⟩, ⟨str "\x7bNOMBRE "⟩, ⟨str "BENEFICIARIO\x7d"⟩]⟩

def c8data : List (Str × Str) :=
  [(str "nombre", str "Juan"), (str "parentesco", str "Hijo")]

/-- A paragraph whose only tag is split across runs. -/
def c8paraSplit : Paragraph := ⟨[⟨str "\x7bNOMBRE "⟩, ⟨str "BENEFICIARIO\x7d"⟩]⟩

/-- C8 (counterexample): the `{NOMBRE BENEFICIARIO}` tag is present in the
paragraph text but wholly contained in no single run; because another tag
(`{PARENTESCO}`) was replaced at run level, the paragraph-level fallback is
skipped and the split tag survives — refuting "the tag is still replaced"
for every such tag. -/
theorem fill_row_fallback_counterexample :
    isSub markerTag (paraText c8para) = true ∧
    (∀ r ∈ c8para.runs, isSub markerTag r.text = false) ∧
    isSub markerTag (paraText (fillParagraph c8data c8para)) = true := by decide

theorem replaceAllFuel_not_sub {pat val : Str} :
    ∀ (fuel : Nat) (t : Str), isSub pat t = false → replaceAllFuel pat val fuel t = t := by
  intro fuel
  induction fuel with
  | zero => intro t _; rfl
  | succ n ih =>
    intro t ht
    cases t with
    | nil => rfl
    | cons c t' =>
      unfold replaceAllFuel
      simp only [isSub, Bool.or_eq_false_iff] at ht
      rw [if_neg (by simp [ht.1])]
      rw [ih t' ht.2]

theorem replaceAll_not_sub {pat val t : Str} (ht : isSub pat t = false) :
    replaceAll pat val t = t :=
  replaceAllFuel_not_sub t.length t ht

theorem runFill_no_match {data : List (Str × Str)} {t : Str}
    (h : ∀ pk ∈ placeholdersMap, isSub pk.1 t = false) :
    runFill data t = (t, false) := by
  unfold runFill
  have aux : ∀ l : List (Str × Str), (∀ pk ∈ l, isSub pk.1 t = false) →
      l.foldl
        (fun acc pk =>
          if isSub pk.1 acc.1 then
            (replaceAll pk.1 ((dictGet pk.2 data).getD []) acc.1, true)
          else acc) (t, false) = (t, false) := by
    intro l
    induction l with
    | nil => intro _; rfl
    | cons pk l' ih =>
      intro hh
      rw [List.foldl_cons, if_neg (by simp [hh pk (by simp)])]
      exact ih (fun pk' hm => hh pk' (by simp [hm]))
  exact aux placeholdersMap h

theorem substAllTags_no_match {data : List (Str × Str)} {t : Str}
    (h : ∀ pk ∈ placeholdersMap, isSub pk.1 t = false) :
    substAllTags data t = t := by
  unfold substAllTags
  have aux : ∀ (l : List (Str × Str)) (u : Str), (∀ pk ∈ l, isSub pk.1 u = false) →
      l.foldl (fun txt pk => replaceAll pk.1 ((dictGet pk.2 data).getD []) txt) u = u := by
    intro l
    induction l with
    | nil => intro u _; rfl
    | cons pk l' ih =>
      intro u hh
      rw [List.foldl_cons, replaceAll_not_sub (hh pk (by simp))]
      exact ih u (fun pk' hm => hh pk' (by simp [hm]))
  exact aux placeholdersMap t h

/-- C8 (amended): the paragraph-level clear-and-rewrite fallback fires only
when *no* run-level substitution happened anywhere in the paragraph; under
that condition the paragraph text always becomes the fully substituted text
(every tag recognisable at paragraph level is replaced), and the recovery is
a total function — never an error.  When some run-level substitution did
happen, split tags are left in place (see the counterexample). -/
theorem fill_paragraph_fallback (data : List (Str × Str)) (p : Paragraph)
    (hruns : ∀ r ∈ p.runs, ∀ pk ∈ placeholdersMap, isSub pk.1 r.text = false) :
    paraText (fillParagraph data p) = substAllTags data (paraText p) := by
  unfold fillParagraph
  have hres : p.runs.map (fun r => runFill data r.text) =
      p.runs.map (fun r => (r.text, false)) := by
    apply List.map_congr_left
    intro r hr
    exact runFill_no_match (hruns r hr)
  rw [hres]
  have hmod : (p.runs.map (fun r => ((r.text : Str), false))).any (·.2) = false := by
    simp [List.any_map]
  simp only [hmod, Bool.false_eq_true, if_false]
  have hruns' : (p.runs.map (fun r => ((r.text : Str), false))).map
      (fun x => Run.mk x.1) = p.runs := by
    rw [List.map_map]
    conv_rhs => rw [← List.map_id p.runs]
    apply List.map_congr_left
    intro r _
    rfl
  by_cases hany : placeholdersMap.any (fun pk => isSub pk.1 (paraText p)) = true
  · rw [if_pos hany]
    by_cases hneq : substAllTags data (paraText p) ≠ paraText p
    · rw [if_pos hneq]
      simp [paraText]
    · rw [if_neg hneq]
      push_neg at hneq
      rw [hruns']
      exact hneq.symm
  · rw [if_neg hany]
    rw [hruns']
    have : ∀ pk ∈ placeholdersMap, isSub pk.1 (paraText p) = false := by
      intro pk hm
      by_contra hc
      simp only [Bool.not_eq_false] at hc
      exact hany (List.any_eq_true.mpr ⟨pk, hm, hc⟩)
    exact (substAllTags_no_match this).symm

/-- Witness: a paragraph whose only tag is split across runs is rewritten to
the substituted text by the fallback. -/
theorem fill_paragraph_fallback_witness :
    paraText (fillParagraph c8data c8paraSplit) =
      substAllTags c8data (paraText c8paraSplit) :=
  fill_paragraph_fallback c8data c8paraSplit (by decide)

/-! ## Claim C1: beneficiary-table expansion postcondition -/

def c1header : Row :=
  ⟨[setCellText (str "Nombre"), setCellText (str "RUT"), setCellText (str "Parentesco")]⟩

def c1template : Row :=
  ⟨[setCellText (str "{NOMBRE BENEFICIARIO}"), setCellText (str "{RUT BENEFICIARIO}"),
    setCellText (str "{PARENTESCO}")]⟩

def c1table : Table := ⟨3, [c1header, c1template]⟩

def c1b1 : List (Str × Str) :=
  [(str "nombre", str "Maria Gonzalez"), (str "rut", str "22.222.222-2"),
   (str "parentesco", str "Conyuge")]

def c1b2 : List (Str × Str) :=
  [(str "nombre", str "Pedro Perez"), (str "rut", str "33.333.333-3"),
   (str "parentesco", str "Hijo")]

/-- C1 (code bug): with two distinct beneficiaries, the row count is as
claimed (header + K rows), but the appended row repeats the *first*
beneficiary's data and the second beneficiary appears nowhere: the source
fills the template row in place *before* cloning it, so the clones copy
already-substituted text and the per-clone substitution finds no tags.
This contradicts the code's own comment ("Copy text from template (which
has placeholders)") and its test `test_beneficiary_fix.py`, which expects
the second beneficiary's name and ID in some row. -/
theorem fill_beneficiary_clone_bug :
    (fillTable [c1b1, c1b2] c1table).rows.length = 3 ∧
    (fillTable [c1b1, c1b2] c1table).rows.map rowText =
      [str "NombreRUTParentesco",
       str "Maria Gonzalez22.222.222-2Conyuge",
       str "Maria Gonzalez22.222.222-2Conyuge"] ∧
    isSub (str "Pedro Perez")
      (((fillTable [c1b1, c1b2] c1table).rows.map rowText).flatten) = false := by decide

/-! ## Claim C10: implicit multi-table expansion -/

def c10plain : Table := ⟨1, [⟨[setCellText (str "Totales")]⟩]⟩

def c10t1 : Table :=
  ⟨2, [⟨[setCellText (str "{NOMBRE BENEFICIARIO}"), setCellText (str "{RUT BENEFICIARIO}")]⟩]⟩

def c10t2 : Table :=
  ⟨2, [⟨[setCellText (str "B: {NOMBRE BENEFICIARIO}"), setCellText (str "{PARENTESCO}")]⟩]⟩

def c10doc : Doc := ⟨[], [c10plain, c10t1, c10t2]⟩

def c10b1 : List (Str × Str) :=
  [(str "nombre", str "Ana Soto"), (str "rut", str "11.111.111-1"),
   (str "parentesco", str "Hija")]

def c10b2 : List (Str × Str) :=
  [(str "nombre", str "Luis Soto"), (str "rut", str "5.555.555-5"),
   (str "parentesco", str "Hijo")]

/-- C10 (counterexample): in a document with two marker-bearing tables and
one plain table, the first beneficiary is written into both marker tables
and the plain table is untouched, but the *second* beneficiary's data
appears in neither marker table (its cloned rows repeat beneficiary 1), so
"every beneficiary written into both tables" is false. -/
theorem fill_multi_table_counterexample :
    (fillBeneficiaryPlaceholders c10doc [c10b1, c10b2]).tables.get? 0 = some c10plain ∧
    isSub (str "Ana Soto")
      ((((fillBeneficiaryPlaceholders c10doc [c10b1, c10b2]).tables.map
        (fun t => (t.rows.map rowText).flatten)).get? 1).getD []) = true ∧
    isSub (str "Ana Soto")
      ((((fillBeneficiaryPlaceholders c10doc [c10b1, c10b2]).tables.map
        (fun t => (t.rows.map rowText).flatten)).get? 2).getD []) = true ∧
    isSub (str "Luis Soto")
      (((fillBeneficiaryPlaceholders c10doc [c10b1, c10b2]).tables.map
        (fun t => (t.rows.map rowText).flatten)).flatten) = false := by decide

theorem fillTablesLoop_length (bens : List (List (Str × Str))) (n : Nat) :
    ∀ ts : List Table, (fillTablesLoop bens n ts).length = ts.length := by
  intro ts
  induction ts with
  | nil => rfl
  | cons t ts' ih => simp [fillTablesLoop, ih]

theorem fillTablesLoop_get (bens : List (List (Str × Str))) (n : Nat) :
    ∀ (ts : List Table) (i : Nat), i < ts.length →
      (fillTablesLoop bens n ts).get? i = (ts.get? i).map (fillTable bens) := by
  intro ts
  induction ts with
  | nil => intro i h; simp at h
  | cons t ts' ih =>
    intro i h
    cases i with
    | zero => rfl
    | succ j =>
      simp only [fillTablesLoop, List.get?_cons_succ]
      exact ih j (by simpa using h)

theorem fillTable_no_marker {bens : List (List (Str × Str))} {t : Table}
    (h : findTemplateRowIdx t = none) : fillTable bens t = t := by
  unfold fillTable
  rw [h]

/-- C10 (amended): every table is processed independently with the *entire*
beneficiary list — table `i` of the result is `fillTable bens` of table `i`
of the input, so each marker-bearing table gets the full fill-and-clone
expansion (growing by K−1 rows, the template row and every clone carrying
beneficiary 1's data, per the clone bug of C1) — and a table with no
marker row is left untouched; body paragraphs are untouched. -/
theorem fill_multi_table_expansion (doc : Doc) (bens : List (List (Str × Str)))
    (i : Nat) (h : i < doc.tables.length) :
    (fillBeneficiaryPlaceholders doc bens).paragraphs = doc.paragraphs ∧
    (fillBeneficiaryPlaceholders doc bens).tables.length = doc.tables.length ∧
    (fillBeneficiaryPlaceholders doc bens).tables.get? i =
      (doc.tables.get? i).map (fillTable bens) ∧
    (findTemplateRowIdx (doc.tables.get ⟨i, h⟩) = none →
      (fillBeneficiaryPlaceholders doc bens).tables.get? i =
        some (doc.tables.get ⟨i, h⟩)) := by
  refine ⟨rfl, fillTablesLoop_length bens 0 doc.tables, fillTablesLoop_get bens 0 doc.tables i h, ?_⟩
  intro hnone
  show (fillTablesLoop bens 0 doc.tables).get? i = some (doc.tables.get ⟨i, h⟩)
  rw [fillTablesLoop_get bens 0 doc.tables i h, List.get?_eq_get h]
  simp only [Option.map_some']
  rw [fillTable_no_marker hnone]

/-- Witness for the amended C10 theorem: the plain table of the concrete
document is untouched. -/
theorem fill_multi_table_expansion_witness :
    (fillBeneficiaryPlaceholders c10doc [c10b1, c10b2]).tables.get? 0 =
      some (c10doc.tables.get ⟨0, by decide⟩) :=
  (fill_multi_table_expansion c10doc [c10b1, c10b2] 0 (by decide)).2.2.2 (by decide)

/-! ## Claim C2: ordering of the engine render and the manual tag pass -/

/-- Stages in which loading yields the given template and rendering and
saving never raise. -/
def pureStages (tmpl : Doc) : GenStages :=
  ⟨Except.ok tmpl, fun c d => Except.ok (renderModel c d), fun d => Except.ok d⟩

/-- A template whose single cell holds an engine tag that renders to the
beneficiary marker. -/
def c2tmpl : Doc := ⟨[], [⟨1, [⟨[setCellText (str "{{X}}")]⟩]⟩]⟩

def c2ctx : Ctx := [(str "X", CtxVal.s (str "{NOMBRE BENEFICIARIO}"))]

def c2bens : List (List (Str × Str)) := [[(str "nombre", str "Juan")]]

/-- C2 (counterexample): the code runs the manual beneficiary pass *before*
`doc.render(context)`.  On a template where rendering materialises the
marker tag, the scan — observing the pre-render state — finds no marker, so
the output still contains the raw tag; under the spec's claimed order the
tag would have been filled with the first beneficiary.  The two orders
produce different results, and the actual output equals the fill-then-render
one. -/
theorem generate_order_counterexample :
    generateContractDocx (pureStages c2tmpl) true c2ctx (some c2bens) ≠
      generateContractSpecOrder (pureStages c2tmpl) true c2ctx (some c2bens) ∧
    (generateContractDocx (pureStages c2tmpl) true c2ctx (some c2bens)).outcome =
      Except.ok ⟨[], [⟨1, [⟨[setCellText (str "{NOMBRE BENEFICIARIO}")]⟩]⟩]⟩ ∧
    (generateContractSpecOrder (pureStages c2tmpl) true c2ctx (some c2bens)).outcome =
      Except.ok ⟨[], [⟨1, [⟨[setCellText (str "Juan")]⟩]⟩]⟩ := by decide

/-- C2 (amended): for every call of `generate_contract_docx` with a
non-empty beneficiary list, the manual beneficiary-tag pass runs *before*
the engine render: the document handed to the scan is the loaded template
(pre-render state), and the render is applied to the already-expanded
document; the spec-order pipeline would instead render first and fill the
rendered document. -/
theorem generate_fill_before_render (st : GenStages) (ctx : Ctx) (tmpl : Doc)
    (bens : List (List (Str × Str))) (hload : st.load = Except.ok tmpl)
    (hb : bens ≠ []) :
    (generateContractDocx st true ctx (some bens)).outcome =
      Except.bind
        (st.render (ctxSet (str "beneficiaries") (CtxVal.bens bens) ctx)
          (fillBeneficiaryPlaceholders tmpl bens)) st.save ∧
    (generateContractSpecOrder st true ctx (some bens)).outcome =
      Except.bind
        (st.render (ctxSet (str "beneficiaries") (CtxVal.bens bens) ctx) tmpl)
        (fun d => st.save (fillBeneficiaryPlaceholders d bens)) := by
  rcases bens with _ | ⟨b, bt⟩
  · exact absurd rfl hb
  · constructor
    · unfold generateContractDocx
      rw [hload]
      simp only [bensTruthy, Option.getD, if_pos rfl]
      rcases hr : st.render (ctxSet (str "beneficiaries") (CtxVal.bens (b :: bt)) ctx)
          (fillBeneficiaryPlaceholders tmpl (b :: bt)) with e | d2
      · simp [hr, Except.bind]
      · rcases hs : st.save d2 with e | saved <;> simp [hr, hs, Except.bind]
    · unfold generateContractSpecOrder
      rw [hload]
      simp only [bensTruthy, Option.getD, if_pos rfl]
      rcases hr : st.render (ctxSet (str "beneficiaries") (CtxVal.bens (b :: bt)) ctx)
          tmpl with e | dR
      · simp [hr, Except.bind]
      · rcases hs : st.save (fillBeneficiaryPlaceholders dR (b :: bt)) with e | saved <;>
          simp [hr, hs, Except.bind]

/-- Witness for the amended C2 theorem at the concrete counterexample
inputs. -/
theorem generate_fill_before_render_witness :
    (generateContractDocx (pureStages c2tmpl) true c2ctx (some c2bens)).outcome =
      Except.bind
        ((pureStages c2tmpl).render (ctxSet (str "beneficiaries") (CtxVal.bens c2bens) c2ctx)
          (fillBeneficiaryPlaceholders c2tmpl c2bens)) (pureStages c2tmpl).save :=
  (generate_fill_before_render (pureStages c2tmpl) c2ctx c2tmpl c2bens rfl (by decide)).1

/-! ## Claim C9: purity of `generate_contract_docx` -/

def c9ctx : Ctx := [(str "nombre_afiliado", CtxVal.s (str "Juan Perez"))]

def c9doc : Doc := ⟨[], []⟩

/-- C9 (counterexample): the function mutates its caller-supplied context —
after a call with a non-empty beneficiary list, the context dictionary has
acquired the `beneficiaries` key. -/
theorem generate_context_mutation_counterexample :
    (generateContractDocx (pureStages c9doc) true c9ctx
        (some [[(str "nombre", str "Ana")]])).ctxAfter ≠ c9ctx := by decide

/-- C9 (amended): the output is a deterministic function of the inputs (the
model is a function), but the caller-supplied context is *not* left
unchanged: whenever the call passes the existence and load steps with a
non-empty `beneficiaries_list`, the key `beneficiaries` is inserted into
(or overwritten in) the caller's context; otherwise the context is
unchanged. -/
theorem generate_context_effect (st : GenStages) (pathExists : Bool) (ctx : Ctx)
    (bensOpt : Option (List (List (Str × Str)))) :
    (generateContractDocx st pathExists ctx bensOpt).ctxAfter =
      if pathExists && st.load.isOk && bensTruthy bensOpt
      then ctxSet (str "beneficiaries") (CtxVal.bens (bensOpt.getD [])) ctx
      else ctx := by
  unfold generateContractDocx
  rcases pathExists with _ | _
  · simp
  · rcases hl : st.load with e | d
    · simp [hl, Except.isOk, Except.toBool]
    · rcases hb : bensTruthy bensOpt with _ | _
      · simp only [hb, Bool.false_eq_true, if_false]
        rcases hr : st.render ctx d with e2 | d2
        · simp [hl, hb, hr, Except.isOk, Except.toBool]
        · rcases hs : st.save d2 with e3 | s <;>
            simp [hl, hb, hr, hs, Except.isOk, Except.toBool]
      · simp only [hb, if_true]
        rcases hr : st.render (ctxSet (str "beneficiaries") (CtxVal.bens (bensOpt.getD [])) ctx)
            (fillBeneficiaryPlaceholders d (bensOpt.getD [])) with e2 | d2
        · simp [hl, hb, hr, Except.isOk, Except.toBool]
        · rcases hs : st.save d2 with e3 | s <;>
            simp [hl, hb, hr, hs, Except.isOk, Except.toBool]

/-! ## Claim C4: fatal-error semantics of document generation -/

/-- C4 (counterexample): the legacy `fill_contract_template` wraps its whole
body in `except Exception: return None, str(e)` — an exception while
opening a missing template, or while serialising, is *caught* and turned
into a normal `(None, message)` return value (`.ok` at the raising layer),
never logged-and-re-raised. -/
theorem fill_contract_template_counterexample :
    fillContractTemplate (Except.error (PyErr.fileNotFound (str "missing.docx")))
        (fun d => Except.ok d) [] =
      Except.ok (FillRet.pairNoneMsg (str "missing.docx")) ∧
    fillContractTemplate (Except.ok ⟨[], []⟩)
        (fun _ => Except.error (PyErr.exc (str "save failed"))) [] =
      Except.ok (FillRet.pairNoneMsg (str "save failed")) := by decide

/-- C4 (amended): `generate_contract_docx` has the claimed fatal-error
semantics — a missing template yields the NotFound error with the context
untouched, independently of every later stage (nothing is processed), and a
successful return is possible only when loading, rendering and saving all
succeeded, so any stage exception surfaces as an error, never as a result
value.  The legacy `fill_contract_template`, by contrast, catches its
exceptions and returns `(None, message)` (see the counterexample). -/
theorem generate_failure_semantics (st st' : GenStages) (ctx : Ctx)
    (bensOpt : Option (List (List (Str × Str)))) :
    (generateContractDocx st false ctx bensOpt =
        ⟨Except.error (PyErr.fileNotFound (str "Template not found")), ctx⟩ ∧
      generateContractDocx st false ctx bensOpt =
        generateContractDocx st' false ctx bensOpt) ∧
    (∀ e, st.load = Except.error e →
      (generateContractDocx st true ctx bensOpt).outcome = Except.error e) ∧
    (∀ d, (generateContractDocx st true ctx bensOpt).outcome = Except.ok d →
      ∃ tmpl d2, st.load = Except.ok tmpl ∧
        st.render
          (if bensTruthy bensOpt then
            ctxSet (str "beneficiaries") (CtxVal.bens (bensOpt.getD [])) ctx else ctx)
          (if bensTruthy bensOpt then
            fillBeneficiaryPlaceholders tmpl (bensOpt.getD []) else tmpl) =
          Except.ok d2 ∧
        st.save d2 = Except.ok d) := by
  refine ⟨⟨rfl, rfl⟩, ?_, ?_⟩
  · intro e he
    simp [generateContractDocx, he]
  · intro d hd
    rcases hl : st.load with e | tmpl
    · simp [generateContractDocx, hl] at hd
    · simp only [generateContractDocx, hl, Bool.true_eq_false, if_false] at hd
      rcases hb : bensTruthy bensOpt with _ | _
      · simp only [hb, Bool.false_eq_true, if_false] at hd ⊢
        rcases hr : st.render ctx tmpl with e2 | d2
        · simp only [hr] at hd; simp at hd
        · simp only [hr] at hd
          rcases hs : st.save d2 with e3 | saved
          · simp only [hs] at hd; simp at hd
          · simp only [hs] at hd
            simp only [Except.ok.injEq] at hd
            subst hd
            exact ⟨tmpl, d2, rfl, hr, hs⟩
      · simp only [hb, if_true] at hd ⊢
        rcases hr : st.render
            (ctxSet (str "beneficiaries") (CtxVal.bens (bensOpt.getD [])) ctx)
            (fillBeneficiaryPlaceholders tmpl (bensOpt.getD [])) with e2 | d2
        · simp only [hr] at hd; simp at hd
        · simp only [hr] at hd
          rcases hs : st.save d2 with e3 | saved
          · simp only [hs] at hd; simp at hd
          · simp only [hs] at hd
            simp only [Except.ok.injEq] at hd
            subst hd
            exact ⟨tmpl, d2, rfl, hr, hs⟩

/-- Witness for the amended C4 theorem: a load failure propagates as the
raised error. -/
theorem generate_failure_semantics_witness :
    (generateContractDocx ⟨Except.error (PyErr.exc (str "boom")),
        fun c d => Except.ok (renderModel c d), fun d => Except.ok d⟩ true c9ctx
        none).outcome = Except.error (PyErr.exc (str "boom")) :=
  (generate_failure_semantics ⟨Except.error (PyErr.exc (str "boom")),
      fun c d => Except.ok (renderModel c d), fun d => Except.ok d⟩
    (pureStages c9doc) c9ctx none).2.1 (PyErr.exc (str "boom")) rfl

/-! ## Claim C3: completeness of beneficiary parsing

The theorem quantifies over an arbitrary prefix (any text in which the
marker phrase does not occur case-insensitively), an arbitrary list of data
rows, and an arbitrary suffix after the table's terminating blank line. -/

/-- The marker heading line of the constructed report. -/
def markerLine : Str := str "## Antecedentes del beneficiario"

def headerLine : Str := str "| Nombre | RUT | Parentesco |"

def sepLine : Str := str "| :--- | :--- | :--- |"

/-- One pipe-delimited data row built from a (name, id, relationship)
triple. -/
def mkRowLine (t : Str × Str × Str) : Str :=
  ['|', ' '] ++ t.1 ++ [' ', '|', ' '] ++ t.2.1 ++ [' ', '|', ' '] ++ t.2.2 ++ [' ', '|']

/-- A report: arbitrary prefix, the marker heading, the three-column header
and separator, the data rows, a blank line, arbitrary suffix. -/
def mkReport (pre : Str) (rows : List (Str × Str × Str)) (suf : Str) : Str :=
  pre ++ markerLine ++ '\n' :: headerLine ++ '\n' :: sepLine ++ '\n' ::
    (joinWith ['\n'] (rows.map mkRowLine) ++ '\n' :: '\n' :: suf)

/-- Well-formedness of one cell: already trimmed, and free of newlines and
pipes. -/
def wfCell (s : Str) : Prop := pyStrip s = s ∧ '\n' ∉ s ∧ '|' ∉ s

/-- Well-formedness of a data row: three well-formed cells, not
separator-like, and not recognised as a header row. -/
def wfRow (t : Str × Str × Str) : Prop :=
  wfCell t.1 ∧ wfCell t.2.1 ∧ wfCell t.2.2 ∧
    sepLike (mkRowLine t) = false ∧
    isHeaderRow [lowStr t.1, lowStr t.2.1, lowStr t.2.2] = false

theorem countWhile_le (p : Char → Bool) (l : Str) : countWhile p l ≤ l.length := by
  unfold countWhile
  induction l with
  | nil => simp
  | cons c t ih =>
    by_cases h : p c
    · rw [List.takeWhile_cons_of_pos h]; simpa using ih
    · rw [List.takeWhile_cons_of_neg h]; simp

theorem countWhile_spec (p : Char → Bool) :
    ∀ (l : Str) (i : Nat) (h : i < countWhile p l),
      p (l.get ⟨i, h.trans_le (countWhile_le p l)⟩) = true := by
  intro l
  induction l with
  | nil => intro i h; simp [countWhile] at h
  | cons c t ih =>
    intro i h
    by_cases hc : p c
    · cases i with
      | zero => simpa using hc
      | succ j =>
        have hj : j < countWhile p t := by
          unfold countWhile at h
          rw [List.takeWhile_cons_of_pos hc] at h
          simpa [countWhile] using h
        simpa using ih j hj
    · unfold countWhile at h
      rw [List.takeWhile_cons_of_neg hc] at h
      simp at h

/-- `ciPrefix` holds on an extension when it holds on a long-enough
prefix. -/
theorem ciPrefix_append {pat : Str} : ∀ {x : Str} (y : Str),
    ciPrefix pat x = true → pat.length ≤ x.length → ciPrefix pat (x ++ y) = true := by
  induction pat with
  | nil => intro x y _ _; rfl
  | cons p ps ih =>
    intro x y h hlen
    cases x with
    | nil => simp at hlen
    | cons c cs =>
      simp only [ciPrefix, Bool.and_eq_true] at h ⊢
      exact ⟨h.1, ih y h.2 (by simpa using hlen)⟩

theorem phraseTitle_ci : ciPrefix phraseLower (str "Antecedentes del beneficiario") = true := by
  decide

/-- The marker regex matches with length 32 at the start of the marker
line. -/
theorem matchMarkerAt_markerLine (rest : Str) :
    matchMarkerAt (markerLine ++ rest) = some 32 := by
  have hm : markerLine ++ rest =
      '#' :: '#' :: ' ' :: (str "Antecedentes del beneficiario" ++ rest) := rfl
  rw [hm]
  unfold matchMarkerAt
  split
  case isFalse hfalse => exact absurd rfl hfalse
  simp only [List.drop_succ_cons, List.drop_zero]
  have hw : countWhile pySpace (' ' :: (str "Antecedentes del beneficiario" ++ rest)) = 1 := by
    unfold countWhile
    rw [List.takeWhile_cons_of_pos (by decide)]
    have : str "Antecedentes del beneficiario" ++ rest = 'A' ::
        (str "ntecedentes del beneficiario" ++ rest) := rfl
    rw [this, List.takeWhile_cons_of_neg (by decide)]
    rfl
  rw [hw]
  simp only [List.drop_succ_cons, List.drop_zero]
  rw [if_pos (ciPrefix_append rest phraseTitle_ci (by decide))]
  rfl

theorem isSub_of_suffix {pat x y : Str} (h : x <:+ y) (hs : isSub pat x = true) :
    isSub pat y = true := by
  rw [isSub_infix_equiv] at hs ⊢
  exact hs.trans h.isInfix

theorem lowStr_append (x y : Str) : lowStr (x ++ y) = lowStr x ++ lowStr y := by
  simp [lowStr]

/-- If the phrase matches case-insensitively at an offset `j` inside
`q ++ '#' :: rest` with `j ≤ q.length`, then either it lies wholly inside
`q`, or it covers the `'#'` — both impossible when the phrase does not
occur in `q`. -/
theorem ciPrefix_phrase_overlap {q rest : Str} {j : Nat} (hj : j ≤ q.length)
    (hq : isSub phraseLower (lowStr q) = false)
    (h : ciPrefix phraseLower ((q ++ '#' :: rest).drop j) = true) : False := by
  have hpre := ciPrefix_prefix_lowStr phraseLower_fixed _ h
  rw [lowStr_drop, lowStr_append] at hpre
  by_cases hcase : j + 29 ≤ q.length
  · -- wholly inside `q`
    have h29 : phraseLower.length = 29 := rfl
    have htake := List.prefix_iff_eq_take.mp hpre
    rw [h29] at htake
    have hdrop : ((lowStr q) ++ lowStr ('#' :: rest)).drop j =
        (lowStr q).drop j ++ lowStr ('#' :: rest) :=
      List.drop_append_of_le_length (by simpa [lowStr] using hj)
    rw [hdrop, List.take_append_of_le_length (by simp [lowStr]; omega)] at htake
    have hinf : phraseLower <:+: lowStr q := by
      rw [htake]
      exact ( List.take_prefix 29 ((lowStr q).drop j)).isInfix.trans
        (List.drop_suffix _ _).isInfix
    have hcontra := (isSub_infix_equiv phraseLower (lowStr q)).mpr hinf
    rw [hq] at hcontra
    simp at hcontra
  · -- covers the '#'
    push_neg at hcase
    have hi : q.length - j < phraseLower.length := by
      have : phraseLower.length = 29 := by decide
      omega
    have hget := hpre.getElem hi
    have hb1 : q.length - j < ((lowStr q ++ lowStr ('#' :: rest)).drop j).length := by
      simp only [List.length_drop, List.length_append]
      simp only [lowStr, List.length_map, List.length_cons]
      omega
    have hb2 : j + (q.length - j) < (lowStr q ++ lowStr ('#' :: rest)).length := by
      simp only [List.length_append]
      simp only [lowStr, List.length_map, List.length_cons]
      omega
    have h1 : ((lowStr q ++ lowStr ('#' :: rest)).drop j)[q.length - j] =
        (lowStr q ++ lowStr ('#' :: rest))[j + (q.length - j)] := List.getElem_drop _
    have h2 : (lowStr q ++ lowStr ('#' :: rest))[j + (q.length - j)] = '#' := by
      have hjq : j + (q.length - j) = (lowStr q).length := by
        simp only [lowStr, List.length_map]; omega
      rw [List.getElem_append_right (by omega)]
      simp [hjq, lowStr, lowChar]
    have hx : phraseLower[q.length - j] = '#' := by
      rw [hget, h1, h2]
    have hmem : '#' ∈ phraseLower := by
      rw [← hx]
      exact List.getElem_mem hi
    exact absurd hmem (by decide)

theorem isSub_false_suffix {pat x y : Str} (h : y <:+ x)
    (hx : isSub pat (lowStr x) = false) : isSub pat (lowStr y) = false := by
  by_contra hc
  simp only [Bool.not_eq_false] at hc
  obtain ⟨z, rfl⟩ := h
  have hsuf : lowStr y <:+ lowStr (z ++ y) := ⟨lowStr z, (lowStr_append z y).symm⟩
  have := isSub_of_suffix hsuf hc
  rw [hx] at this
  simp at this

/-- A count of characters satisfying `p` stops no later than a `'#'` (for a
predicate false on `'#'`). -/
theorem countWhile_le_hash {p : Char → Bool} (hp : p '#' = false) (q z : Str) :
    countWhile p (q ++ '#' :: z) ≤ q.length := by
  by_contra hgt
  push_neg at hgt
  have hlen : q.length < (q ++ '#' :: z).length := by simp
  have hspec := countWhile_spec p (q ++ '#' :: z) q.length hgt
  simp only [List.get_eq_getElem] at hspec
  rw [List.getElem_append_right (le_refl q.length)] at hspec
  simp only [Nat.sub_self, List.getElem_cons_zero] at hspec
  rw [hp] at hspec
  exact Bool.false_ne_true hspec

/-- The marker regex never matches at a position strictly inside the
prefix. -/
theorem matchMarkerAt_prefix_none (q rest : Str) (hq0 : q ≠ [])
    (hq : isSub phraseLower (lowStr q) = false) :
    matchMarkerAt (q ++ (markerLine ++ rest)) = none := by
  have hml : markerLine ++ rest =
      '#' :: ('#' :: ' ' :: (str "Antecedentes del beneficiario" ++ rest)) := rfl
  -- decomposition of `drop 2` as `q₂ ++ '#' :: z₂` with the phrase absent
  -- from `q₂`
  have hdecomp : ∃ q₂ z₂, (q ++ (markerLine ++ rest)).drop 2 = q₂ ++ '#' :: z₂ ∧
      isSub phraseLower (lowStr q₂) = false := by
    match q, hq0 with
    | [a], _ =>
      refine ⟨[], ' ' :: (str "Antecedentes del beneficiario" ++ rest), ?_, by decide⟩
      rw [hml]
      rfl
    | a :: b :: q'', _ =>
      refine ⟨q'', markerLine.drop 1 ++ rest, ?_, ?_⟩
      · rw [hml]
        have : (a :: b :: q'') ++ ('#' :: ('#' :: ' ' ::
            (str "Antecedentes del beneficiario" ++ rest))) =
            a :: b :: (q'' ++ '#' :: ('#' :: ' ' ::
              (str "Antecedentes del beneficiario" ++ rest))) := by simp
        rw [this]
        rfl
      · exact isSub_false_suffix (by
          have : q'' = (a :: b :: q'').drop 2 := rfl
          rw [this]
          exact List.drop_suffix 2 (a :: b :: q'')) hq
  unfold matchMarkerAt
  split
  · -- `##` alternative: the phrase check fails
    obtain ⟨q₂, z₂, hdrop, hq₂⟩ := hdecomp
    rw [hdrop]
    have hw : countWhile pySpace (q₂ ++ '#' :: z₂) ≤ q₂.length :=
      countWhile_le_hash (by decide) q₂ z₂
    rw [if_neg]
    intro hcp
    exact ciPrefix_phrase_overlap hw hq₂ hcp
  · -- digit alternative
    rcases hd0 : countWhile isDigitB (q ++ (markerLine ++ rest)) with _ | d'
    · rw [if_pos rfl]
    · rw [if_neg (by simp [hd0])]
      have hdn : countWhile isDigitB (q ++ (markerLine ++ rest)) ≤ q.length := by
        rw [hml]
        exact countWhile_le_hash (by decide) q _
      rcases hqd : q.drop (d' + 1) with _ | ⟨c0, qd0⟩
      · -- the digit run ends exactly at the end of `q` (or beyond it; then
        -- the next character is the marker's `'#'`, not `.`/`)`)
        have hlen : q.length = d' + 1 := by
          have h1 : q.length ≤ d' + 1 := by
            have := congrArg List.length hqd
            simp at this
            omega
          omega
        have hthis : (q ++ (markerLine ++ rest)).drop (d' + 1) = markerLine ++ rest := by
          rw [← hlen, List.drop_left]
        rw [hthis, hml]
        simp
      · -- the digit run ends strictly inside `q`
        have hlt : d' + 1 ≤ q.length := by
          have := congrArg List.length hqd
          simp at this
          omega
        have hdropq : (q ++ (markerLine ++ rest)).drop (d' + 1) =
            c0 :: (qd0 ++ (markerLine ++ rest)) := by
          rw [List.drop_append_of_le_length hlt, hqd]
          rfl
        rw [hdropq]
        show (if c0 = '.' ∨ c0 = ')' then
            (if ciPrefix phraseLower ((qd0 ++ (markerLine ++ rest)).drop
                (countWhile pySpace (qd0 ++ (markerLine ++ rest)))) = true then
              some (d' + 1 + 1 + countWhile pySpace (qd0 ++ (markerLine ++ rest)) +
                phraseLower.length)
            else none)
          else none) = none
        split
        · rw [if_neg]
          intro hcp
          have hq₃ : isSub phraseLower (lowStr qd0) = false := by
            refine isSub_false_suffix ?_ hq
            have : qd0 = q.drop (d' + 2) := by
              have : q.drop (d' + 2) = (q.drop (d' + 1)).drop 1 := by
                rw [List.drop_drop]
              rw [this, hqd]
              rfl
            rw [this]
            exact List.drop_suffix _ q
          have hrw : qd0 ++ (markerLine ++ rest) =
              qd0 ++ '#' :: ('#' :: ' ' :: (str "Antecedentes del beneficiario" ++ rest)) := by
            rw [hml]
          rw [hrw] at hcp
          have hw : countWhile pySpace
              (qd0 ++ '#' :: ('#' :: ' ' :: (str "Antecedentes del beneficiario" ++ rest))) ≤
              qd0.length := countWhile_le_hash (by decide) qd0 _
          exact ciPrefix_phrase_overlap hw hq₃ hcp
        · rfl

/-- The tail of a constructed report after the marker heading. -/
def reportTail (rows : List (Str × Str × Str)) (suf : Str) : Str :=
  '\n' :: (headerLine ++ '\n' :: (sepLine ++ '\n' ::
    (joinWith ['\n'] (rows.map mkRowLine) ++ '\n' :: '\n' :: suf)))

theorem mkReport_eq (pre : Str) (rows : List (Str × Str × Str)) (suf : Str) :
    mkReport pre rows suf = pre ++ (markerLine ++ reportTail rows suf) := by
  unfold mkReport reportTail
  simp

theorem findMarkerEndAux_mkReport (tail : Str) :
    ∀ (pre : Str) (pos : Nat), isSub phraseLower (lowStr pre) = false →
      findMarkerEndAux (pre ++ (markerLine ++ tail)) pos = some (pos + (pre.length + 32)) := by
  intro pre
  induction pre with
  | nil =>
    intro pos _
    have : ([] : Str) ++ (markerLine ++ tail) = markerLine ++ tail := rfl
    rw [this]
    have hne : markerLine ++ tail = '#' :: (markerLine.drop 1 ++ tail) := rfl
    rw [hne]
    unfold findMarkerEndAux
    rw [← hne, matchMarkerAt_markerLine]
    rfl
  | cons c p ih =>
    intro pos h
    have hcons : (c :: p) ++ (markerLine ++ tail) = c :: (p ++ (markerLine ++ tail)) := rfl
    rw [hcons]
    unfold findMarkerEndAux
    rw [← hcons, matchMarkerAt_prefix_none (c :: p) tail (by simp) h]
    have hp : isSub phraseLower (lowStr p) = false :=
      isSub_false_suffix (List.suffix_cons c p) h
    rw [ih (pos + 1) hp]
    exact congrArg some (by simp only [List.length_cons]; omega)

theorem findMarkerEnd_mkReport (pre : Str) (rows : List (Str × Str × Str)) (suf : Str)
    (h : isSub phraseLower (lowStr pre) = false) :
    findMarkerEnd (mkReport pre rows suf) = some (pre.length + 32) := by
  rw [mkReport_eq]
  unfold findMarkerEnd
  rw [findMarkerEndAux_mkReport (reportTail rows suf) pre 0 h]
  exact congrArg some (by omega)

theorem mkReport_drop (pre : Str) (rows : List (Str × Str × Str)) (suf : Str) :
    (mkReport pre rows suf).drop (pre.length + 32) = reportTail rows suf := by
  rw [mkReport_eq]
  have h1 : (pre ++ (markerLine ++ reportTail rows suf)).drop (pre.length + 32) =
      ((pre ++ (markerLine ++ reportTail rows suf)).drop pre.length).drop 32 := by
    rw [List.drop_drop]
  rw [h1, List.drop_left]
  have : (32 : Nat) = markerLine.length := rfl
  rw [this, List.drop_left]

theorem head?_append_of_head? {x y : Str} {c : Char} (h : x.head? = some c) :
    (x ++ y).head? = some c := by
  cases x with
  | nil => simp at h
  | cons a t => simpa using h

theorem length_dropWhile_le (p : Char → Bool) (l : Str) :
    (l.dropWhile p).length ≤ l.length := by
  induction l with
  | nil => simp
  | cons c t ih =>
    by_cases h : p c
    · rw [List.dropWhile_cons_of_pos h]
      exact ih.trans (by simp)
    · rw [List.dropWhile_cons_of_neg h]

/-- A string that strips to itself has a non-blank first character. -/
theorem pyStrip_self_head {x : Str} (hx : pyStrip x = x) {c : Char}
    (hc : x.head? = some c) : pySpace c = false := by
  by_contra hs
  simp only [Bool.not_eq_false] at hs
  cases x with
  | nil => simp at hc
  | cons a t =>
    simp only [List.head?_cons, Option.some.injEq] at hc
    subst hc
    have hlen : (pyStrip (a :: t)).length ≤ t.length := by
      unfold pyStrip
      rw [List.dropWhile_cons_of_pos hs]
      calc ((t.dropWhile pySpace).reverse.dropWhile pySpace).reverse.length
          = ((t.dropWhile pySpace).reverse.dropWhile pySpace).length := by simp
        _ ≤ (t.dropWhile pySpace).reverse.length := length_dropWhile_le _ _
        _ = (t.dropWhile pySpace).length := by simp
        _ ≤ t.length := length_dropWhile_le _ _
    rw [hx] at hlen
    simp at hlen

/-- A string that strips to itself has a non-blank last character. -/
theorem pyStrip_self_last {x : Str} (hx : pyStrip x = x) {c : Char}
    (hc : x.getLast? = some c) : pySpace c = false := by
  by_contra hs
  simp only [Bool.not_eq_false] at hs
  have hxne : x ≠ [] := by
    intro h
    subst h
    simp at hc
  rcases hAe : x.dropWhile pySpace with _ | ⟨a, As⟩
  · have hnil : pyStrip x = [] := by
      unfold pyStrip
      rw [hAe]
      rfl
    rw [hx] at hnil
    exact hxne hnil
  · have hAne : x.dropWhile pySpace ≠ [] := by rw [hAe]; simp
    have hlast : (x.dropWhile pySpace).getLast? = some c := by
      rw [getLast?_of_suffix (List.dropWhile_suffix pySpace) hAne]
      exact hc
    have hrevhead : (x.dropWhile pySpace).reverse.head? = some c := by
      rw [← List.getLast?_eq_head?_reverse]
      exact hlast
    rcases hAr : (x.dropWhile pySpace).reverse with _ | ⟨r, rs⟩
    · rw [hAr] at hrevhead
      simp at hrevhead
    · have hr : r = c := by
        rw [hAr] at hrevhead
        simpa using hrevhead
      subst hr
      have hlen : (pyStrip x).length ≤ rs.length := by
        unfold pyStrip
        rw [hAr, List.dropWhile_cons_of_pos hs]
        calc ((rs.dropWhile pySpace).reverse).length
            = (rs.dropWhile pySpace).length := by simp
          _ ≤ rs.length := length_dropWhile_le _ _
      rw [hx] at hlen
      have h1 : (x.dropWhile pySpace).length ≤ x.length := length_dropWhile_le _ _
      have h2 : (x.dropWhile pySpace).length = rs.length + 1 := by
        have := congrArg List.length hAr
        simpa using this
      omega

theorem splitOnChar_cons_sep (sep : Char) (ys : Str) :
    splitOnChar sep (sep :: ys) = [] :: splitOnChar sep ys := by
  conv_lhs => rw [splitOnChar]
  rw [if_pos rfl]

theorem splitOnChar_ne_nil (sep : Char) : ∀ s : Str, splitOnChar sep s ≠ [] := by
  intro s
  cases s with
  | nil => simp [splitOnChar]
  | cons c t =>
    unfold splitOnChar
    by_cases h : c = sep
    · rw [if_pos h]; simp
    · rw [if_neg h]
      rcases splitOnChar sep t with _ | ⟨p, ps⟩ <;> simp

/-- Splitting an appended separator: the separator-free part becomes the
first piece. -/
theorem splitOnChar_append_sep {sep : Char} :
    ∀ {xs : Str}, sep ∉ xs → ∀ ys : Str,
      splitOnChar sep (xs ++ sep :: ys) = xs :: splitOnChar sep ys := by
  intro xs
  induction xs with
  | nil => intro _ ys; exact splitOnChar_cons_sep sep ys
  | cons c t ih =>
    intro hx ys
    have hc : c ≠ sep := by
      intro h
      exact hx (by simp [h])
    have ht : sep ∉ t := fun h => hx (by simp [h])
    have hrec := ih ht ys
    show splitOnChar sep (c :: (t ++ sep :: ys)) = (c :: t) :: splitOnChar sep ys
    conv_lhs => rw [splitOnChar]
    rw [if_neg hc, hrec]

/-- Splitting a separator-free string yields one piece. -/
theorem splitOnChar_no_sep {sep : Char} : ∀ {xs : Str}, sep ∉ xs →
    splitOnChar sep xs = [xs] := by
  intro xs
  induction xs with
  | nil => intro _; rfl
  | cons c t ih =>
    intro hx
    have hc : c ≠ sep := fun h => hx (by simp [h])
    have ht : sep ∉ t := fun h => hx (by simp [h])
    unfold splitOnChar
    rw [if_neg hc, ih ht]

theorem splitOnChar_joinWith {sep : Char} :
    ∀ (rows : List Str), rows ≠ [] → (∀ r ∈ rows, sep ∉ r) → ∀ z : Str,
      splitOnChar sep (joinWith [sep] rows ++ sep :: z) =
        rows ++ splitOnChar sep z := by
  intro rows
  induction rows with
  | nil => intro h; exact absurd rfl h
  | cons x xs ih =>
    intro _ hall z
    cases xs with
    | nil =>
      show splitOnChar sep (x ++ sep :: z) = [x] ++ splitOnChar sep z
      rw [splitOnChar_append_sep (hall x (by simp)) z]
      rfl
    | cons y ys =>
      have hjoin : joinWith [sep] (x :: y :: ys) = x ++ sep :: joinWith [sep] (y :: ys) := by
        show x ++ [sep] ++ joinWith [sep] (y :: ys) = x ++ sep :: joinWith [sep] (y :: ys)
        simp
      rw [hjoin]
      have hassoc : (x ++ sep :: joinWith [sep] (y :: ys)) ++ sep :: z =
          x ++ sep :: (joinWith [sep] (y :: ys) ++ sep :: z) := by
        simp
      rw [hassoc, splitOnChar_append_sep (hall x (by simp)) _]
      rw [ih (by simp) (fun r hr => hall r (by simp [hr])) z]
      rfl

/-- Stripping the surrounding single blanks recovers a trimmed cell. -/
theorem pyStrip_wrap {x : Str} (hx : pyStrip x = x) :
    pyStrip (' ' :: (x ++ [' '])) = x := by
  unfold pyStrip
  rw [List.dropWhile_cons_of_pos (by decide)]
  cases hxe : x with
  | nil => rfl
  | cons a t =>
    have hhead : pySpace a = false := pyStrip_self_head hx (by rw [hxe]; rfl)
    rw [← hxe]
    have h1 : (x ++ [' ']).dropWhile pySpace = x ++ [' '] := by
      rw [hxe]
      simp only [List.cons_append]
      rw [List.dropWhile_cons_of_neg (by simp [hhead])]
    rw [h1]
    have h2 : (x ++ [' ']).reverse = ' ' :: x.reverse := by simp
    rw [h2, List.dropWhile_cons_of_pos (by decide)]
    have h3 : x.reverse.dropWhile pySpace = x.reverse := by
      rcases hrev : x.reverse with _ | ⟨r, rs⟩
      · rfl
      · have hlastmem : x.getLast? = some r := by
          rw [List.getLast?_eq_head?_reverse, hrev]
          rfl
        have := pyStrip_self_last hx hlastmem
        rw [List.dropWhile_cons_of_neg (by simp [this])]
    rw [h3]
    simp

/-- The cells of a constructed data row. -/
theorem rowCells_mkRowLine {t : Str × Str × Str} (h1 : wfCell t.1) (h2 : wfCell t.2.1)
    (h3 : wfCell t.2.2) : rowCells (mkRowLine t) = [t.1, t.2.1, t.2.2] := by
  obtain ⟨n, r, p⟩ := t
  obtain ⟨hn1, hn2, hn3⟩ := h1
  obtain ⟨hr1, hr2, hr3⟩ := h2
  obtain ⟨hp1, hp2, hp3⟩ := h3
  unfold rowCells
  have hstrip : stripPipes (mkRowLine (n, r, p)) =
      (' ' :: (n ++ [' '])) ++ '|' :: ((' ' :: (r ++ [' '])) ++ '|' :: (' ' :: (p ++ [' ']))) := by
    unfold stripPipes mkRowLine
    have hshape : mkRowLine (n, r, p) = '|' ::
        (((' ' :: (n ++ [' '])) ++ '|' :: ((' ' :: (r ++ [' '])) ++ '|' :: (' ' :: (p ++ [' '])))) ++ ['|']) := by
      unfold mkRowLine
      simp
    unfold mkRowLine at hshape
    rw [hshape]
    rw [List.dropWhile_cons_of_pos (by decide)]
    set inner := (' ' :: (n ++ [' '])) ++ '|' :: ((' ' :: (r ++ [' '])) ++ '|' :: (' ' :: (p ++ [' ']))) with hinner
    have hdw : (inner ++ ['|']).dropWhile (· = '|') = inner ++ ['|'] := by
      rw [hinner]
      simp only [List.cons_append]
      rw [List.dropWhile_cons_of_neg (by decide)]
    rw [hdw]
    have hrev : (inner ++ ['|']).reverse = '|' :: inner.reverse := by simp
    rw [hrev, List.dropWhile_cons_of_pos (by decide)]
    have hrevdw : inner.reverse.dropWhile (· = '|') = inner.reverse := by
      have hres : inner.reverse =
          ' ' :: (p.reverse ++ [' ', '|', ' '] ++ r.reverse ++ [' ', '|', ' '] ++
            n.reverse ++ [' ']) := by
        rw [hinner]
        simp
      rw [hres]
      rw [List.dropWhile_cons_of_neg (by decide)]
    rw [hrevdw]
    simp
  rw [hstrip]
  rw [splitOnChar_append_sep (by
    intro hmem
    simp only [List.mem_cons, List.mem_append, List.mem_singleton] at hmem
    rcases hmem with h | h | h
    · exact absurd h (by decide)
    · exact hn3 h
    · exact absurd h (by decide)) _]
  rw [splitOnChar_append_sep (by
    intro hmem
    simp only [List.mem_cons, List.mem_append, List.mem_singleton] at hmem
    rcases hmem with h | h | h
    · exact absurd h (by decide)
    · exact hr3 h
    · exact absurd h (by decide)) _]
  rw [splitOnChar_no_sep (by
    intro hmem
    simp only [List.mem_cons, List.mem_append, List.mem_singleton] at hmem
    rcases hmem with h | h | h
    · exact absurd h (by decide)
    · exact hp3 h
    · exact absurd h (by decide))]
  simp only [List.map_cons, List.map_nil]
  rw [pyStrip_wrap hn1, pyStrip_wrap hr1, pyStrip_wrap hp1]

theorem mkRowLine_head (t : Str × Str × Str) : (mkRowLine t).head? = some '|' := rfl

theorem mkRowLine_last (t : Str × Str × Str) : (mkRowLine t).getLast? = some '|' := by
  unfold mkRowLine
  repeat rw [List.getLast?_append_of_ne_nil _ (by simp)]
  rfl

theorem mkRowLine_strip (t : Str × Str × Str) : pyStrip (mkRowLine t) = mkRowLine t := by
  apply pyStrip_eq_self
  · intro c hc
    rw [mkRowLine_head t] at hc
    injection hc with h
    subst h
    rfl
  · intro c hc
    rw [mkRowLine_last t] at hc
    injection hc with h
    subst h
    rfl

theorem newline_not_mem_mkRowLine {t : Str × Str × Str} (h : wfRow t) :
    '\n' ∉ mkRowLine t := by
  obtain ⟨⟨_, hn, _⟩, ⟨_, hr, _⟩, ⟨_, hp, _⟩, _, _⟩ := h
  intro hmem
  unfold mkRowLine at hmem
  simp at hmem
  rcases hmem with h | h | h
  · exact hn h
  · exact hr h
  · exact hp h

/-- Splitting the post-marker tail into lines: a leading blank, the header
and separator lines, the data rows, a blank, then the suffix's lines. -/
theorem splitLines_reportTail (rows : List (Str × Str × Str)) (suf : Str)
    (hw : ∀ t ∈ rows, '\n' ∉ mkRowLine t) :
    ∃ rest, splitOnChar '\n' (reportTail rows suf) =
      [] :: headerLine :: sepLine :: (rows.map mkRowLine ++ [] :: rest) := by
  unfold reportTail
  rw [splitOnChar_cons_sep]
  rw [splitOnChar_append_sep (by decide) _]
  rw [splitOnChar_append_sep (by decide) _]
  cases rows with
  | nil =>
    refine ⟨[] :: splitOnChar '\n' suf, ?_⟩
    simp only [List.map_nil, List.nil_append]
    rw [show joinWith ['\n'] ([] : List Str) = [] from rfl, List.nil_append]
    rw [splitOnChar_cons_sep, splitOnChar_cons_sep]
  | cons t ts =>
    refine ⟨splitOnChar '\n' suf, ?_⟩
    have hjoin := splitOnChar_joinWith ((t :: ts).map mkRowLine) (by simp)
      (fun r hr => by
        obtain ⟨u, hu, hru⟩ := List.mem_map.mp hr
        rw [← hru]
        exact hw u hu) ('\n' :: suf)
    rw [hjoin, splitOnChar_cons_sep]

/-- The blank line before the table and the concrete header/separator lines
drive the collection loop into the table with the header captured. -/
theorem collect_start (X : List Str) :
    collectTableLines ([] :: headerLine :: sepLine :: X) false [] =
      collectTableLines X true [headerLine] := rfl

/-- Inside the table, well-shaped data lines are accumulated until the
terminating blank line. -/
theorem collect_rows (rest : List Str) :
    ∀ (rls : List Str) (acc : List Str),
      (∀ l ∈ rls, pyStrip l = l ∧ l.head? = some '|' ∧ l.getLast? = some '|' ∧
        sepLike l = false) →
      collectTableLines (rls ++ [] :: rest) true acc = acc ++ rls := by
  intro rls
  induction rls with
  | nil =>
    intro acc _
    show collectTableLines ([] :: rest) true acc = acc ++ []
    rw [List.append_nil]
    rfl
  | cons l ls ih =>
    intro acc hall
    obtain ⟨hstrip, hhead, hlast, hsep⟩ := hall l (by simp)
    have hne : l.isEmpty = false := by
      cases l with
      | nil => simp at hhead
      | cons a b => rfl
    have hstep : collectTableLines ((l :: ls) ++ [] :: rest) true acc =
        collectTableLines (ls ++ [] :: rest) true (acc ++ [l]) := by
      show collectTableLines (l :: (ls ++ [] :: rest)) true acc = _
      simp only [collectTableLines]
      rw [hstrip, hne, hsep]
      simp [hhead, hlast]
    rw [hstep, ih _ (fun x hx => hall x (by simp [hx]))]
    simp

/-- The header map produced by the concrete header line. -/
def hm0 : List (Nat × Str) :=
  [(0, str "nombre"), (1, str "rut"), (2, str "parentesco")]

/-- Scanning the concrete header line installs `hm0` and sets the
header-found flag. -/
theorem headerScan_start (rls : List Str) :
    headerScan (headerLine :: rls) [] false [] = headerScan rls hm0 true [] := rfl

/-- After the header was found, non-header lines are accumulated as data
rows. -/
theorem headerScan_rows :
    ∀ (rls : List Str) (hm : List (Nat × Str)) (dl : List (List Str)),
      (∀ l ∈ rls, isHeaderRow ((rowCells l).map lowStr) = false) →
      headerScan rls hm true dl = (hm, dl ++ rls.map rowCells) := by
  intro rls
  induction rls with
  | nil => intro hm dl _; simp [headerScan]
  | cons l ls ih =>
    intro hm dl hall
    have hl := hall l (by simp)
    have hstep : headerScan (l :: ls) hm true dl =
        headerScan ls hm true (dl ++ [rowCells l]) := by
      simp only [headerScan]
      rw [hl]
      simp
    rw [hstep, ih _ _ (fun x hx => hall x (by simp [hx]))]
    simp

/-- A three-cell row under the header map fills the three core keys. -/
theorem mkRowData_hm0 (n r p : Str) :
    mkRowData hm0 [n, r, p] =
      [(str "nombre", n), (str "rut", r), (str "parentesco", p)] := rfl

theorem rowAccepted_hm0 (n r p : Str) :
    rowAccepted (mkRowData hm0 [n, r, p]) = (!n.isEmpty || !r.isEmpty) := rfl

/-- The record-accumulation fold is a filter-then-map. -/
theorem recordsFold (hm : List (Nat × Str)) :
    ∀ (dl : List (List Str)) (acc : List (List (Str × Str))),
      dl.foldl (fun a cells =>
          if rowAccepted (mkRowData hm cells) then a ++ [mkRowData hm cells] else a) acc =
        acc ++ (dl.filter (fun cells => rowAccepted (mkRowData hm cells))).map
          (fun cells => mkRowData hm cells) := by
  intro dl
  induction dl with
  | nil => intro acc; simp
  | cons c t ih =>
    intro acc
    rw [List.foldl_cons, List.filter_cons]
    by_cases h : rowAccepted (mkRowData hm c) = true
    · rw [if_pos h, if_pos h, ih]
      simp
    · rw [if_neg h, if_neg h, ih]

/-- Filtering and mapping the cell rows of well-formed triples yields the
claimed record list. -/
theorem recordsOfRows (rows : List (Str × Str × Str)) :
    ((rows.map (fun t => [t.1, t.2.1, t.2.2])).filter
        (fun cells => rowAccepted (mkRowData hm0 cells))).map
      (fun cells => mkRowData hm0 cells) =
    (rows.filter (fun t => !t.1.isEmpty || !t.2.1.isEmpty)).map
      (fun t => [(str "nombre", t.1), (str "rut", t.2.1), (str "parentesco", t.2.2)]) := by
  induction rows with
  | nil => rfl
  | cons t ts ih =>
    simp only [List.map_cons]
    rw [List.filter_cons, List.filter_cons, rowAccepted_hm0]
    by_cases h : (!t.1.isEmpty || !t.2.1.isEmpty) = true
    · rw [if_pos h, if_pos h]
      simp only [List.map_cons, ih, mkRowData_hm0]
    · rw [if_neg h, if_neg h, ih]

/-- Unfolding the extractor once the marker position is known. -/
theorem extract_eq_some {s : Str} {k : Nat} (h : findMarkerEnd s = some k) :
    extractBeneficiariesFromReport s =
      (let lines := splitOnChar '\n' (s.drop k)
       let tableLines := collectTableLines lines false []
       if tableLines.isEmpty then []
       else
         let scanned := headerScan tableLines [] false []
         let hm := if scanned.1.isEmpty then defaultHeaderMap else scanned.1
         let dl := if scanned.1.isEmpty then tableLines.map rowCells else scanned.2
         dl.foldl
           (fun acc cells =>
             let rd := mkRowData hm cells
             if rowAccepted rd then acc ++ [rd] else acc) []) := by
  unfold extractBeneficiariesFromReport
  rw [h]

/-- The extractor on a constructed report: records are exactly the
well-formed rows with a non-empty name or national ID, in source order. -/
theorem extract_mkReport (pre suf : Str) (rows : List (Str × Str × Str))
    (hpre : isSub phraseLower (lowStr pre) = false)
    (hrows : ∀ t ∈ rows, wfRow t) :
    extractBeneficiariesFromReport (mkReport pre rows suf) =
      (rows.filter (fun t => !t.1.isEmpty || !t.2.1.isEmpty)).map
        (fun t => [(str "nombre", t.1), (str "rut", t.2.1), (str "parentesco", t.2.2)]) := by
  obtain ⟨rest, hsplit⟩ := splitLines_reportTail rows suf
    (fun t ht => newline_not_mem_mkRowLine (hrows t ht))
  have hprops : ∀ l ∈ rows.map mkRowLine, pyStrip l = l ∧ l.head? = some '|' ∧
      l.getLast? = some '|' ∧ sepLike l = false := by
    intro l hl
    obtain ⟨t, ht, hlt⟩ := List.mem_map.mp hl
    obtain ⟨_, _, _, hsep, _⟩ := hrows t ht
    rw [← hlt]
    exact ⟨mkRowLine_strip t, mkRowLine_head t, mkRowLine_last t, hsep⟩
  have hcollect : collectTableLines
      ([] :: headerLine :: sepLine :: (rows.map mkRowLine ++ [] :: rest)) false [] =
      headerLine :: rows.map mkRowLine := by
    rw [collect_start, collect_rows rest _ _ hprops]
    rfl
  have hscan : headerScan (headerLine :: rows.map mkRowLine) [] false [] =
      (hm0, rows.map (fun t => [t.1, t.2.1, t.2.2])) := by
    rw [headerScan_start, headerScan_rows _ _ _ (by
      intro l hl
      obtain ⟨t, ht, hlt⟩ := List.mem_map.mp hl
      obtain ⟨h1, h2, h3, _, hhdr⟩ := hrows t ht
      rw [← hlt, rowCells_mkRowLine h1 h2 h3]
      exact hhdr)]
    rw [List.nil_append, List.map_map]
    exact congrArg _ (List.map_congr_left (fun t ht => by
      obtain ⟨h1, h2, h3, _, _⟩ := hrows t ht
      show rowCells (mkRowLine t) = _
      rw [rowCells_mkRowLine h1 h2 h3]))
  rw [extract_eq_some (findMarkerEnd_mkReport pre rows suf hpre)]
  simp only [mkReport_drop, hsplit, hcollect, hscan, List.isEmpty_cons,
    Bool.false_eq_true, if_false]
  rw [show (hm0, rows.map (fun t => [t.1, t.2.1, t.2.2])).1.isEmpty = false from rfl]
  simp only [Bool.false_eq_true, if_false]
  rw [recordsFold hm0 _ [], List.nil_append, recordsOfRows]

instance (s : Str) : Decidable (wfCell s) := by
  unfold wfCell
  infer_instance

instance (t : Str × Str × Str) : Decidable (wfRow t) := by
  unfold wfRow
  infer_instance

/-- Concrete report pieces exercising the completeness theorem: two
substantive rows and one fully blank row (which the acceptance guard
discards). -/
def c3pre : Str := str "Informe Final\nSe identifican los siguientes datos.\n"

def c3rows : List (Str × Str × Str) :=
  [(str "Maria Gonzalez", str "22.222.222-2", str "Conyuge"),
   (str "Pedro Perez", str "33.333.333-3", str "Hijo"),
   (str "", str "", str "")]

def c3suf : Str := str "Fin del informe."

/-- C3: for every report text containing, under the beneficiary section
marker, a Markdown table with the recognized header row and N well-formed
data rows, `extract_beneficiaries_from_report` returns the records of
exactly those rows with a non-empty name or non-empty national ID, in
source order, each carrying the row's name/RUT/relationship cells; in
particular, when every row has a non-empty name or national ID the parser
returns exactly N records. -/
theorem extract_beneficiaries_complete (pre suf : Str) (rows : List (Str × Str × Str))
    (hpre : isSub phraseLower (lowStr pre) = false)
    (hrows : ∀ t ∈ rows, wfRow t) :
    extractBeneficiariesFromReport (mkReport pre rows suf) =
      (rows.filter (fun t => !t.1.isEmpty || !t.2.1.isEmpty)).map
        (fun t => [(str "nombre", t.1), (str "rut", t.2.1), (str "parentesco", t.2.2)]) ∧
    ((∀ t ∈ rows, (!t.1.isEmpty || !t.2.1.isEmpty) = true) →
      (extractBeneficiariesFromReport (mkReport pre rows suf)).length = rows.length) := by
  have hmain := extract_mkReport pre suf rows hpre hrows
  refine ⟨hmain, fun hall => ?_⟩
  rw [hmain, List.length_map, List.filter_eq_self.mpr hall]

/-- Witness: on the concrete report the theorem applies and the parser
returns exactly the two substantive rows, in order, dropping the blank
one. -/
theorem extract_beneficiaries_complete_witness :
    extractBeneficiariesFromReport (mkReport c3pre c3rows c3suf) =
      [[(str "nombre", str "Maria Gonzalez"), (str "rut", str "22.222.222-2"),
        (str "parentesco", str "Conyuge")],
       [(str "nombre", str "Pedro Perez"), (str "rut", str "33.333.333-3"),
        (str "parentesco", str "Hijo")]] :=
  ((extract_beneficiaries_complete c3pre c3suf c3rows (by decide) (by decide)).1).trans
    (by decide)

end AppPrevisional
